import Mathlib

/-!
Verification of the agent execution loop of the Market-Research-AI-Assistant
repository, a shallow embedding of `src/agents/base/agent.py`
(`BaseAgent.retrieve_context` and `BaseAgent.execute`).

Modelling conventions:
* Python values that may be `None` become `Option`; Python truthiness of
  strings (`if s:`) is `truthyOpt` / `truthyStr`.
* The language-model gateway is an oracle `Nat → GatewayTurn` indexed by the
  number of gateway calls already made in this invocation; a transport error
  is the `GatewayTurn.raise` constructor (a Python exception with a message).
* Local tool methods (`hasattr` dispatch), the sandboxed code-execution
  collaborator and the agent registry are oracles in the environment.
  The registry (`agents/registry.py`) and the code-execution endpoint
  (`app/api/v1/endpoints/databricks.py`) are not part of the given sources:
  they are modelled from the spec as `lookup(name) -> agent instance or
  absent` and `run(code, language) -> result-or-raised-error`.
* The bounded `while step_count < max_steps` loop with its retry counter is
  `loopGo` with a structural fuel argument; the fuel is initialised to
  `(10 - step_count) + (3 - retry_count) = 13`, which is an upper bound on
  the number of iterations, and the fuel-zero case coincides with the
  loop-guard-failed case (both return the max-steps failure), so `loopGo 13`
  computes exactly the source loop.
* An event trace records every gateway call (with the tool catalog and
  tool_choice argument actually passed) and every tool dispatch.
-/

set_option maxRecDepth 10000

/-! ## Basic string helpers (Python `in`, `os.path.basename`, counting) -/

/-- Python substring test helper on character lists: is `n` an initial
segment of `h`? -/
def leadsWith : List Char → List Char → Bool
  | [], _ => true
  | _ :: _, [] => false
  | a :: as, b :: bs => a = b && leadsWith as bs

/-- Does the character list `h` contain `n` as a contiguous sublist?
(`n in h` in Python for strings.) -/
def containsChars : List Char → List Char → Bool
  | [], n => n.isEmpty
  | h :: t, n => leadsWith n (h :: t) || containsChars t n

/-- Python `needle in hay` on strings. -/
def strContains (hay needle : String) : Bool :=
  containsChars hay.data needle.data

/-- Number of (possibly overlapping) occurrences of `n` in `h`. -/
def countOccChars : List Char → List Char → Nat
  | [], _ => 0
  | h :: t, n => (if leadsWith n (h :: t) then 1 else 0) + countOccChars t n

/-- Number of occurrences of `needle` in `hay`. -/
def countOcc (hay needle : String) : Nat :=
  countOccChars hay.data needle.data

/-- Helper for `baseName`: keep the characters after the last slash. -/
def baseNameAux : List Char → List Char → List Char
  | [], acc => acc.reverse
  | c :: rest, acc => if c = '/' then baseNameAux rest [] else baseNameAux rest (c :: acc)

/-- `os.path.basename` on a POSIX system: the part after the last slash. -/
def baseName (s : String) : String :=
  ⟨baseNameAux s.data []⟩

/-- Python truthiness of a string. -/
def truthyStr (s : String) : Bool := s ≠ ""

/-- Python truthiness of an optional string (`None` and `""` are falsy). -/
def truthyOpt : Option String → Bool
  | none => false
  | some s => truthyStr s

/-- `"\n".join(parts)`. -/
def joinLines (parts : List String) : String :=
  String.intercalate "\n" parts

/-! ## Data model -/

/-- Metadata for a successful final answer
(the `metadata` dict built at the final-response site). -/
structure Meta where
  context_used : Bool
  sources_used : List String
  data_access : String
deriving DecidableEq

/-- `AgentResponse` dataclass. `content` is declared `str` in the source but
the loop can pass `None` through, so it is an `Option` here. -/
structure AgentResponse where
  content : Option String
  agent_name : String
  sources : Option (List String) := none
  metadata : Option Meta := none
  success : Bool := true
  error : Option String := none
  plot : Option String := none
deriving DecidableEq

/-- Key-value argument mapping obtained from `json.loads` on the raw
tool-call argument string. -/
abbrev ArgMap := List (String × String)

/-- `args.get(k)`. -/
def getArg (m : ArgMap) (k : String) : Option String :=
  (List.find? (fun p => p.1 = k) m).map (fun p => p.2)

/-- Outcome of `json.loads(function_args)`: a mapping, or a raised
exception with message `msg`. -/
inductive ArgsParse where
  | ok (args : ArgMap)
  | fail (msg : String)
deriving DecidableEq

/-- A structured tool invocation produced by the gateway
(`tool_call.id`, `tool_call.function.name`, parsed
`tool_call.function.arguments`). -/
structure ToolCallRec where
  id : String
  name : String
  args : ArgsParse
deriving DecidableEq

/-- The value bound to `tool_output` before serialization into the
transcript. -/
inductive ToolOut where
  /-- `tool_output` was left as `None`. -/
  | null
  /-- a local method returned a plain string (kept verbatim, no dumps). -/
  | str (s : String)
  /-- the error dict built by the dispatcher:
  `status = "error"`, `error = msg`. -/
  | errDict (msg : String)
  /-- the dict built from the code-execution result:
  status, output, error, plot-note. -/
  | databricksDict (status : String) (output error plotNote : Option String)
  /-- any other value a local method returned (opaque). -/
  | val (tag : String)
deriving DecidableEq

/-- Content of a transcript message. -/
inductive MsgContent where
  | text (s : String)
  | null
  /-- serialized tool outcome (`json.dumps(tool_output)`). -/
  | payload (o : ToolOut)
deriving DecidableEq

/-- A transcript message. -/
structure Message where
  role : String
  content : MsgContent
  tool_calls : List ToolCallRec := []
  tool_call_id : Option String := none
  name : Option String := none
deriving DecidableEq

/-- Message content from an optional assistant text. -/
def optMsgContent : Option String → MsgContent
  | none => .null
  | some s => .text s

/-- One gateway turn: `chat_completion` either raises a transport error or
returns a message whose tool calls were extracted by `parse_tool_calls`. -/
inductive GatewayTurn where
  | raise (msg : String)
  | reply (content : Option String) (toolCalls : List ToolCallRec)

/-- What `hasattr(self, name)` / `callable(getattr(self, name))` finds,
together with the behavior of the method when called with parsed
arguments: a returned value or a raised exception. -/
inductive AttrKind where
  | absent
  | notCallable
  | method (f : ArgMap → Except String ToolOut)

/-- Result shape of the code-execution collaborator
(`execute_code` in `app/api/v1/endpoints/databricks.py`, not under the
given sources). Modelled from the spec: `run(code, language) ->
\x7bstatus, output, error, plot?\x7d`. -/
structure DbResult where
  status : String
  output : Option String := none
  error : Option String := none
  plot : Option String := none

/-- Caller-provided context mapping (the keys `execute` actually reads). -/
structure Ctx where
  conversation_history : Option String := none
  cluster_id : Option String := none

/-- A document metadata record returned by the RAG retriever
(the keys `retrieve_context` and the final-response builder read). -/
structure DocRec where
  title : Option String := none
  metadata_storage_name : Option String := none
  source : Option String := none
  filename : Option String := none
  file_id : Option String := none
  id : Option String := none
  content : Option String := none
deriving DecidableEq

/-- A graph entity record returned by the KAG retriever. -/
structure EntRec where
  name : Option String := none
  label : Option String := none
deriving DecidableEq

/-- The dict built by `retrieve_context`. -/
structure RetrievedContext where
  rag_results : List DocRec
  kag_results : List EntRec
  sources_used : List String
  context_text : String

/-- The static configuration and external collaborators of one agent:
its role definition plus the oracles the loop consumes.
`registry` is modelled from the spec (`agents/registry.py` is not under
the given sources): `lookup(name)` yields the delegate agent, represented
by its (total) `execute` function from the routed query to its response. -/
structure Env where
  name : String
  systemPrompt : String
  toolCatalog : List String
  toolChoicePolicy : String
  hasLLM : Bool
  gateway : Nat → GatewayTurn
  attrs : String → AttrKind
  databricks : String → Option String → String → Except String DbResult
  registry : String → Option (String → AgentResponse)
  rag : Except String (List DocRec)
  kag : Except String (List EntRec)

/-! ## Context retriever (`BaseAgent.retrieve_context`) -/

/-- `doc.get('title', 'Unknown')`. -/
def docTitle (d : DocRec) : String :=
  d.title.getD "Unknown"

/-- The filename fallback chain
`doc.get('metadata_storage_name') or doc.get('source') or
doc.get('filename') or "Unknown File"`, followed by the basename step
applied when the name contains a slash or a backslash. -/
def docFname (d : DocRec) : String :=
  let f0 :=
    if truthyOpt d.metadata_storage_name then d.metadata_storage_name.getD ""
    else if truthyOpt d.source then d.source.getD ""
    else if truthyOpt d.filename then d.filename.getD ""
    else "Unknown File"
  if strContains f0 "/" || strContains f0 "\\" then baseName f0 else f0

/-- `doc.get('file_id') or doc.get('id') or "unknown_id"`. -/
def docFileId (d : DocRec) : String :=
  if truthyOpt d.file_id then d.file_id.getD ""
  else if truthyOpt d.id then d.id.getD ""
  else "unknown_id"

/-- The deduplication key `f"\x7btitle\x7d_\x7bfname\x7d"` recorded in
`seen_files`. -/
def docKey (d : DocRec) : String :=
  docTitle d ++ "_" ++ docFname d

/-- The document records that survive deduplication by `seen_files`
(first occurrence of each key wins, insertion order preserved). -/
def dedupDocs : List DocRec → List String → List DocRec
  | [], _ => []
  | d :: rest, seen =>
    if docKey d ∈ seen then dedupDocs rest seen
    else d :: dedupDocs rest (docKey d :: seen)

/-- The rendered per-document context line. -/
def renderDocLine (d : DocRec) : String :=
  "  - [Doc] " ++ docTitle d ++ " (ID: " ++ docFileId d ++ ") (Filename: " ++ docFname d ++ ")"

/-- All document lines appended to `context_parts`. -/
def docLines (docs : List DocRec) : List String :=
  (dedupDocs docs []).map renderDocLine

/-- The rendered per-entity context line. -/
def entLine (e : EntRec) : String :=
  "  - [Graph] " ++ e.label.getD "Entity" ++ ": " ++ e.name.getD "Unknown"

/-- Entity lines (`kag_entities[:10]`). -/
def entLines (ents : List EntRec) : List String :=
  (ents.take 10).map entLine

/-- `BaseAgent.retrieve_context`, as a function of the outcomes of the two
retriever calls (each either a result list or a raised exception). The
whole body sits in one `try`: a failure at any point is swallowed and the
partially-filled context dict is returned. -/
def retrieve_context (rag : Except String (List DocRec)) (kag : Except String (List EntRec)) :
    RetrievedContext :=
  match rag with
  | .error _ => { rag_results := [], kag_results := [], sources_used := [], context_text := "" }
  | .ok ragDocs =>
    let ragResults := if ragDocs ≠ [] then ragDocs else []
    let sources1 := if ragDocs ≠ [] then ["Azure AI Search (Direct Metadata)"] else []
    match kag with
    | .error _ =>
      { rag_results := ragResults, kag_results := [], sources_used := sources1, context_text := "" }
    | .ok kagEnts =>
      let kagResults := if kagEnts ≠ [] then kagEnts else []
      let sources2 :=
        sources1 ++ (if kagEnts ≠ [] then ["Cosmos DB Gremlin (Direct Graph)"] else [])
      let parts :=
        ["=== AVAILABLE METADATA (Direct Access) ==="]
        ++ (if ragDocs ≠ [] then "\nDocuments (Metadata):" :: docLines ragDocs else [])
        ++ (if kagEnts ≠ [] then "\nKnowledge Graph (Structure):" :: entLines kagEnts else [])
        ++ (if ragDocs = [] ∧ kagEnts = [] then ["No relevant metadata found for this query."] else [])
      { rag_results := ragResults, kag_results := kagResults,
        sources_used := sources2, context_text := joinLines parts }

/-! ## System prompt assembly (lines 213-227 of `execute`) -/

/-- The static data access policy string (`_get_data_access_policy`),
kept as an abstract constant; its exact wording carries no claim. -/
def dataAccessPolicy : String :=
  "DATA ACCESS POLICY: only knowledge-base data from RAG and KAG; no direct file, database or external API access."

/-- An abstraction of Python `str(r)` on a raw document record, used by the
fallback branch that inlines up to five raw results. -/
def docRecStr (d : DocRec) : String :=
  docTitle d ++ " | " ++ (d.content.getD "")

/-- The caller context defaulting (`context or \x7b\x7d`). -/
def fullCtxOf (ctx : Option Ctx) : Ctx :=
  ctx.getD {}

/-- The system prompt built from the policy, the role prompt, the
retrieved context and the conversation history. -/
def buildSystemPrompt (env : Env) (rc : RetrievedContext) (fc : Ctx) : String :=
  let base := dataAccessPolicy ++ "\n" ++ env.systemPrompt
  let base :=
    if rc.context_text ≠ "" then base ++ "\n\n" ++ rc.context_text
    else if rc.rag_results ≠ [] then
      base ++ "\n\nRelevant information from uploaded documents:\n"
        ++ joinLines ((rc.rag_results.take 5).map docRecStr)
    else base
  match fc.conversation_history with
  | some h => if truthyStr h then base ++ "\n\nConversation History:\n" ++ h else base
  | none => base

/-! ## Tool dispatcher (the body of the per-tool-call `try` block) -/

/-- Did `hasattr(self, name)` succeed? -/
def hasAttr : AttrKind → Bool
  | .absent => false
  | _ => true

/-- Result of dispatching one tool call: either a `tool_output` value to be
serialized into the transcript, or the terminal delegated response. -/
inductive DispatchResult where
  | outcome (o : ToolOut)
  | delegated (r : AgentResponse)
deriving DecidableEq

/-- One tool call dispatched inside the per-call `try`/`except`:
`json.loads`, then the `hasattr` / `execute_databricks_code` /
`route_to_agent` / not-implemented chain; every raised exception is
converted into the `status: error` dict. -/
def dispatchToolCall (env : Env) (query : String) (fc : Ctx) (tc : ToolCallRec) :
    DispatchResult :=
  match tc.args with
  | .fail m => .outcome (.errDict m)
  | .ok args =>
    if hasAttr (env.attrs tc.name) = true ∧ tc.name ≠ "execute" then
      match env.attrs tc.name with
      | .method f =>
        match f args with
        | .ok o => .outcome o
        | .error e => .outcome (.errDict e)
      | _ => .outcome .null
    else if tc.name = "execute_databricks_code" then
      let code := getArg args "code"
      let language := (getArg args "language").getD "python"
      let clusterId := fc.cluster_id.getD "mock-cluster-1"
      match env.databricks clusterId code language with
      | .ok r =>
        .outcome (.databricksDict r.status r.output r.error
          (if truthyOpt r.plot then some "Plot generated" else none))
      | .error e => .outcome (.errDict e)
    else if tc.name = "route_to_agent" then
      match getArg args "agent_name" with
      | some t =>
        match env.registry t with
        | some d => .delegated (d ((getArg args "query").getD query))
        | none => .outcome (.errDict ("Agent " ++ t ++ " not found"))
      | none => .outcome (.errDict "Agent None not found")
    else .outcome (.errDict ("Tool " ++ tc.name ++ " not implemented"))

/-- Serialization of `tool_output` into the tool message content
(`json.dumps(tool_output) if not isinstance(tool_output, str) else
tool_output`). -/
def toolMsgContent : ToolOut → MsgContent
  | .str s => .text s
  | o => .payload o

/-- The tool-role message appended after a dispatch. -/
def toolMsg (tc : ToolCallRec) (o : ToolOut) : Message :=
  { role := "tool", content := toolMsgContent o, tool_calls := [],
    tool_call_id := some tc.id, name := some tc.name }

/-- Observable loop events: each gateway call with the transcript, tool
catalog and tool_choice actually passed, and each tool dispatch. -/
inductive Ev where
  | planned (msgs : List Message) (tools : Option (List String)) (toolChoice : Option String)
  | dispatched (name : String) (result : DispatchResult)
deriving DecidableEq

/-- `tool_choice_value` (lines 250-253): `"none"` once a tool has executed,
otherwise the agent's declared policy when it has tools, else `None`. -/
def toolChoiceValueOf (env : Env) (hasExec : Bool) : Option String :=
  if hasExec then some "none"
  else if env.toolCatalog ≠ [] then some env.toolChoicePolicy else none

/-- `tools_to_pass` (line 257): withhold the catalog when the computed
choice is `"none"`, and also when the catalog is empty. -/
def toolsToPassOf (env : Env) (hasExec : Bool) : Option (List String) :=
  if toolChoiceValueOf env hasExec = some "none" then none
  else if env.toolCatalog ≠ [] then some env.toolCatalog else none

/-- The `tool_choice` argument actually passed to `chat_completion`
(line 262): `tool_choice_value if tools_to_pass else None`. -/
def toolChoiceArgOf (env : Env) (hasExec : Bool) : Option String :=
  match toolsToPassOf env hasExec with
  | some _ => toolChoiceValueOf env hasExec
  | none => none

/-- The assistant message appended on a tool turn, its content nullified
when truthy (lines 285-289). -/
def asstMsg (c : Option String) (tcs : List ToolCallRec) : Message :=
  { role := "assistant",
    content := if truthyOpt c then .null else optMsgContent c,
    tool_calls := tcs, tool_call_id := none, name := none }

/-- Result of processing the tool calls of one turn. -/
inductive TurnOut where
  /-- a delegation hit: the loop returns this response immediately. -/
  | delegatedT (r : AgentResponse) (evs : List Ev)
  /-- all calls produced outcomes appended to the transcript. -/
  | completedT (msgs : List Message) (evs : List Ev)
deriving DecidableEq

/-- The `for tool_call in tool_calls` loop: dispatch each call in order;
a resolved delegation returns immediately (remaining calls unprocessed;
a non-resolved one just appends its error outcome); every outcome is
appended as a tool-role message. -/
def processCalls (env : Env) (query : String) (fc : Ctx) :
    List ToolCallRec → List Message → TurnOut
  | [], msgs => .completedT msgs []
  | tc :: rest, msgs =>
    match dispatchToolCall env query fc tc with
    | .delegated r => .delegatedT r [Ev.dispatched tc.name (.delegated r)]
    | .outcome o =>
      match processCalls env query fc rest (msgs ++ [toolMsg tc o]) with
      | .delegatedT r evs => .delegatedT r (Ev.dispatched tc.name (.outcome o) :: evs)
      | .completedT m evs => .completedT m (Ev.dispatched tc.name (.outcome o) :: evs)

/-! ## The execution loop (`while step_count < max_steps`) -/

/-- The successful final response built at the no-more-tool-calls site. -/
def mkFinalResponse (env : Env) (rc : RetrievedContext) (c : Option String) :
    AgentResponse :=
  { content := c, agent_name := env.name,
    sources := some (rc.sources_used ++ (rc.rag_results.take 3).map (fun r =>
      match r.title with
      | some t => t
      | none => (r.content.getD "").take 50)),
    metadata := some { context_used := !rc.rag_results.isEmpty,
                       sources_used := rc.sources_used,
                       data_access := "Hybrid RAG + Code Interpreter" },
    success := true, error := none, plot := none }

/-- Loop state: the counters, the tool-forcing flag, the transcript, and
the number of gateway calls already made (the index into the gateway
oracle). -/
structure LoopSt where
  stepCount : Nat
  retryCount : Nat
  hasExecutedTool : Bool
  messages : List Message
  calls : Nat
deriving DecidableEq

/-- The event recording one gateway call from state `s`. -/
def plannedEv (env : Env) (s : LoopSt) : Ev :=
  .planned s.messages (toolsToPassOf env s.hasExecutedTool)
    (toolChoiceArgOf env s.hasExecutedTool)

/-- How one invocation of the loop ends. -/
inductive Outcome where
  /-- the final-answer return site (success response). -/
  | final (r : AgentResponse)
  /-- the terminal delegation return site. -/
  | delegatedR (r : AgentResponse)
  /-- the loop guard failed (or the LLM client is missing): the
  max-steps failure response. -/
  | maxSteps
  /-- `raise llm_error` after retry exhaustion, caught by the top-level
  handler. -/
  | raised (msg : String)
deriving DecidableEq

/-- Loop result: the outcome plus the chronological event trace. -/
structure LoopOut where
  outcome : Outcome
  evs : List Ev
deriving DecidableEq

/-- The ReAct loop. The fuel argument is a structural bound on the number
of iterations: every iteration either increments `stepCount` (bounded by
10 by the guard) or increments `retryCount` (bounded by 3), so
`(10 - stepCount) + (3 - retryCount)` iterations always suffice; when the
fuel is zero the guard `stepCount < 10` has necessarily failed, and both
cases return the max-steps outcome. -/
def loopGo (env : Env) (query : String) (fc : Ctx) (rc : RetrievedContext) :
    Nat → LoopSt → LoopOut
  | 0, _ => { outcome := .maxSteps, evs := [] }
  | fuel + 1, s =>
    if s.stepCount < 10 then
      if env.hasLLM then
        match env.gateway s.calls with
        | .raise m =>
          if s.retryCount + 1 ≥ 3 then
            { outcome := .raised m, evs := [plannedEv env s] }
          else
            let out := loopGo env query fc rc fuel
              { s with retryCount := s.retryCount + 1, calls := s.calls + 1 }
            { outcome := out.outcome, evs := plannedEv env s :: out.evs }
        | .reply c tcs =>
          if tcs ≠ [] then
            match processCalls env query fc tcs (s.messages ++ [asstMsg c tcs]) with
            | .delegatedT r devs =>
              { outcome := .delegatedR r, evs := plannedEv env s :: devs }
            | .completedT msgs2 devs =>
              let out := loopGo env query fc rc fuel
                { stepCount := s.stepCount + 1, retryCount := s.retryCount,
                  hasExecutedTool := true, messages := msgs2, calls := s.calls + 1 }
              { outcome := out.outcome, evs := plannedEv env s :: (devs ++ out.evs) }
          else
            let contentS := c.getD ""
            if truthyOpt c &&
                (strContains contentS "route_to_agent"
                  || strContains contentS "execute_databricks_code") then
              let out := loopGo env query fc rc fuel
                { s with stepCount := s.stepCount + 1, calls := s.calls + 1 }
              { outcome := out.outcome, evs := plannedEv env s :: out.evs }
            else
              { outcome := .final (mkFinalResponse env rc c), evs := [plannedEv env s] }
      else
        { outcome := .maxSteps, evs := [] }
    else
      { outcome := .maxSteps, evs := [] }

/-! ## Entry point (`BaseAgent.execute`) -/

/-- The max-steps / repeated-errors failure response (line 418). -/
def maxStepsResponse (name : String) : AgentResponse :=
  { content := some "I tried to process your request but reached the maximum allowed steps or encountered repeated errors.",
    agent_name := name, sources := none, metadata := none,
    success := false, error := some "Max steps or retries exceeded", plot := none }

/-- The top-level exception handler response (line 428), with the
empty-message fallback of line 426. -/
def apologizeResponse (name : String) (m : String) : AgentResponse :=
  let e := if m = "" then "Unknown error in " ++ name ++ " agent" else m
  { content := some ("I apologize, I encountered an issue: " ++ e),
    agent_name := name, sources := none, metadata := none,
    success := false, error := some e, plot := none }

/-- The initial transcript: system prompt then the user query. -/
def initialMessages (env : Env) (query : String) (rc : RetrievedContext) (fc : Ctx) :
    List Message :=
  [ { role := "system", content := .text (buildSystemPrompt env rc fc) },
    { role := "user", content := .text query } ]

/-- The body of `execute` inside the top-level `try`: retrieval, prompt
assembly, then the loop started with `step_count = 0`, `retry_count = 0`,
`has_executed_tool = False` (fuel 13 is the initial iteration bound). -/
def executeBody (env : Env) (query : String) (ctx : Option Ctx) : LoopOut :=
  let rc := retrieve_context env.rag env.kag
  let fc := fullCtxOf ctx
  loopGo env query fc rc 13
    { stepCount := 0, retryCount := 0, hasExecutedTool := false,
      messages := initialMessages env query rc fc, calls := 0 }

/-- `BaseAgent.execute`: the loop body wrapped in the top-level
`try`/`except` that converts a propagated exception into the apology
response; the guard-exhausted path returns the max-steps response. -/
def execute (env : Env) (query : String) (ctx : Option Ctx) : AgentResponse :=
  match (executeBody env query ctx).outcome with
  | .final r => r
  | .delegatedR r => r
  | .maxSteps => maxStepsResponse env.name
  | .raised m => apologizeResponse env.name m

/-- The chronological event trace of one invocation. -/
def eventsOf (env : Env) (query : String) (ctx : Option Ctx) : List Ev :=
  (executeBody env query ctx).evs

/-- Is this event a gateway (planning) call? -/
def isPlannedEv : Ev → Bool
  | .planned _ _ _ => true
  | _ => false

/-- Is this event a tool dispatch? -/
def isDispatchEv : Ev → Bool
  | .dispatched _ _ => true
  | _ => false

/-- Number of gateway (planning) calls recorded in a trace. -/
def plannedCount (evs : List Ev) : Nat :=
  (evs.filter isPlannedEv).length

/-- The tool catalog and tool_choice arguments of the `i`-th event, when it
is a planning call. -/
def plannedChoiceAt (evs : List Ev) (i : Nat) :
    Option (Option (List String) × Option String) :=
  match evs.get? i with
  | some (.planned _ tp tca) => some (tp, tca)
  | _ => none

/-- The transcript sent by the `i`-th event, when it is a planning call. -/
def plannedMsgsAt (evs : List Ev) (i : Nat) : Option (List Message) :=
  match evs.get? i with
  | some (.planned m _ _) => some m
  | _ => none

/-- The events of a turn result. -/
def turnEvs : TurnOut → List Ev
  | .delegatedT _ evs => evs
  | .completedT _ evs => evs

/-- `s.startsWith p`. -/
def strStarts (s p : String) : Bool :=
  leadsWith p.data s.data

/-- A planning event that offers no tools and passes no tool_choice. -/
def noToolsOffered (e : Ev) : Prop :=
  ∀ m tp tca, e = .planned m tp tca → tp = none ∧ tca = none

/-- Every planning event that comes strictly after some dispatch event in
the trace offers no tools and passes no tool_choice. -/
def afterDispatchNoTools (evs : List Ev) : Prop :=
  ∀ i j, i < j → (∃ nm r, evs.get? i = some (.dispatched nm r)) →
    ∀ e, evs.get? j = some e → noToolsOffered e

/-- The four problem categories of claim C6: unparseable arguments, an
unknown tool name, a delegation whose target is absent from the registry,
and a local handler that throws. -/
def problematicCall (env : Env) (tc : ToolCallRec) : Prop :=
  (∃ m, tc.args = .fail m ∧ m ≠ "")
  ∨ (∃ args, tc.args = .ok args ∧ env.attrs tc.name = .absent ∧
      tc.name ≠ "execute_databricks_code" ∧ tc.name ≠ "route_to_agent")
  ∨ (∃ args, tc.args = .ok args ∧ tc.name = "route_to_agent" ∧
      env.attrs "route_to_agent" = .absent ∧
      (∀ t, getArg args "agent_name" = some t → env.registry t = none))
  ∨ (∃ args f e, tc.args = .ok args ∧ env.attrs tc.name = .method f ∧
      tc.name ≠ "execute" ∧ f args = .error e ∧ e ≠ "")

/-- Number of elements of `\x7bf₁, f₂\x7d` strictly below `c` (the retry
count accumulated after `c` gateway calls when exactly the calls at
indices `f₁`, `f₂` and a later `f₃` fail). -/
def failCnt (f₁ f₂ c : Nat) : Nat :=
  (if f₁ < c then 1 else 0) + (if f₂ < c then 1 else 0)

/-! ## Concrete environments used by witnesses and counterexamples -/

/-- A minimal concrete agent environment around a given gateway. -/
def baseEnv (g : Nat → GatewayTurn) : Env :=
  { name := "agent", systemPrompt := "You are a helpful analyst.",
    toolCatalog := ["tool_one"], toolChoicePolicy := "auto", hasLLM := true,
    gateway := g, attrs := fun _ => .absent,
    databricks := fun _ _ _ => .error "offline",
    registry := fun _ => none, rag := .ok [], kag := .ok [] }

/-- Gateway that always raises. -/
def cEnvC1 : Env := baseEnv (fun _ => .raise "boom")

/-- Gateway that always returns one non-delegation tool call. -/
def cEnvC2 : Env := baseEnv (fun _ => .reply none [⟨"id1", "search_docs", .ok []⟩])

/-- Gateway that always raises, with per-call messages. -/
def cEnvC3 : Env := baseEnv (fun n => .raise ("transport error " ++ toString n))

/-- A tool turn followed by a plain final answer. -/
def cEnvC4 : Env :=
  baseEnv (fun n => if n = 0 then .reply none [⟨"id1", "search_docs", .ok []⟩]
                    else .reply (some "done") [])

/-- A registry with one delegate and a first-turn delegation between two
other tool calls. -/
def cEnvC5 : Env :=
  { baseEnv (fun _ => .reply none
      [⟨"id0", "search_docs", .ok []⟩,
       ⟨"id1", "route_to_agent", .ok [("agent_name", "python"), ("query", "sub task")]⟩,
       ⟨"id2", "other_tool", .ok []⟩]) with
    registry := fun s =>
      if s = "python" then
        some (fun rq => { content := some ("answer to " ++ rq), agent_name := "python",
                          sources := some ["s1"], metadata := none,
                          success := true, error := none, plot := none })
      else none }

/-- Environment for the dispatcher-robustness witness. -/
def cEnvC6 : Env := baseEnv (fun _ => .reply (some "done") [])

/-- An unknown tool call. -/
def tcC6 : ToolCallRec := ⟨"id9", "mystery_tool", .ok []⟩

/-- An echoed tool-name text turn, then a clean final answer. -/
def cEnvC8 : Env :=
  baseEnv (fun n => if n = 0 then .reply (some "I will call route_to_agent now") []
                    else .reply (some "All done.") [])

/-- Gateway that always returns one non-delegation tool call (step-budget
exhaustion for the C9 counterexample). -/
def cEnvC9 : Env := baseEnv (fun _ => .reply none [⟨"id1", "search_docs", .ok []⟩])

/-- Environment with no LLM client: the loop exits immediately through the
max-steps return site. -/
def cEnvC9W : Env := { baseEnv (fun _ => .raise "x") with hasLLM := false }

/-- Failures at gateway calls 0, 2 and 4, tool turns in between. -/
def cEnvC10 : Env :=
  baseEnv (fun n => if n = 0 ∨ n = 2 ∨ n = 4 then .raise ("fail " ++ toString n)
                    else .reply none [⟨"id1", "search_docs", .ok []⟩])

/-- Documents sharing a title but with distinct filenames (C7
counterexample input). -/
def dC7a : DocRec := { title := some "zebra", metadata_storage_name := some "f1.txt" }

/-- Second document: same title, different filename. -/
def dC7b : DocRec := { title := some "zebra", metadata_storage_name := some "f2.txt" }

/-- Two documents with the same title and the same filename (C7 amended
witness input). -/
def dC7c : DocRec := { title := some "zebra", metadata_storage_name := some "f1.txt", id := some "77" }

/-! ## Step lemmas for the loop -/

theorem loopGo_guard (env : Env) (q : String) (fc : Ctx) (rc : RetrievedContext)
    (fuel : Nat) (s : LoopSt) (h : ¬ s.stepCount < 10) :
    loopGo env q fc rc fuel s = { outcome := .maxSteps, evs := [] } := by
  cases fuel with
  | zero => rfl
  | succ n => simp [loopGo, h]

theorem loopGo_noLLM (env : Env) (q : String) (fc : Ctx) (rc : RetrievedContext)
    (fuel : Nat) (s : LoopSt) (h : env.hasLLM = false) :
    loopGo env q fc rc fuel s = { outcome := .maxSteps, evs := [] } := by
  cases fuel with
  | zero => rfl
  | succ n =>
    simp only [loopGo, h]
    split <;> rfl

theorem loopGo_raise_fatal (env : Env) (q : String) (fc : Ctx) (rc : RetrievedContext)
    (fuel : Nat) (s : LoopSt) (m : String)
    (h10 : s.stepCount < 10) (hL : env.hasLLM = true)
    (hg : env.gateway s.calls = .raise m) (hr : 3 ≤ s.retryCount + 1) :
    loopGo env q fc rc (fuel + 1) s = { outcome := .raised m, evs := [plannedEv env s] } := by
  simp [loopGo, h10, hL, hg, hr]

theorem loopGo_raise_retry (env : Env) (q : String) (fc : Ctx) (rc : RetrievedContext)
    (fuel : Nat) (s : LoopSt) (m : String)
    (h10 : s.stepCount < 10) (hL : env.hasLLM = true)
    (hg : env.gateway s.calls = .raise m) (hr : s.retryCount + 1 < 3) :
    loopGo env q fc rc (fuel + 1) s =
      { outcome := (loopGo env q fc rc fuel
          { s with retryCount := s.retryCount + 1, calls := s.calls + 1 }).outcome,
        evs := plannedEv env s :: (loopGo env q fc rc fuel
          { s with retryCount := s.retryCount + 1, calls := s.calls + 1 }).evs } := by
  have hr' : ¬ 3 ≤ s.retryCount + 1 := by omega
  simp [loopGo, h10, hL, hg, hr']

theorem loopGo_turn_delegated (env : Env) (q : String) (fc : Ctx) (rc : RetrievedContext)
    (fuel : Nat) (s : LoopSt) (c : Option String) (tcs : List ToolCallRec)
    (r : AgentResponse) (devs : List Ev)
    (h10 : s.stepCount < 10) (hL : env.hasLLM = true)
    (hg : env.gateway s.calls = .reply c tcs) (htc : tcs ≠ [])
    (hp : processCalls env q fc tcs (s.messages ++ [asstMsg c tcs]) = .delegatedT r devs) :
    loopGo env q fc rc (fuel + 1) s =
      { outcome := .delegatedR r, evs := plannedEv env s :: devs } := by
  simp [loopGo, h10, hL, hg, htc, hp]

theorem loopGo_turn_completed (env : Env) (q : String) (fc : Ctx) (rc : RetrievedContext)
    (fuel : Nat) (s : LoopSt) (c : Option String) (tcs : List ToolCallRec)
    (msgs2 : List Message) (devs : List Ev)
    (h10 : s.stepCount < 10) (hL : env.hasLLM = true)
    (hg : env.gateway s.calls = .reply c tcs) (htc : tcs ≠ [])
    (hp : processCalls env q fc tcs (s.messages ++ [asstMsg c tcs]) = .completedT msgs2 devs) :
    loopGo env q fc rc (fuel + 1) s =
      { outcome := (loopGo env q fc rc fuel
          { stepCount := s.stepCount + 1, retryCount := s.retryCount,
            hasExecutedTool := true, messages := msgs2, calls := s.calls + 1 }).outcome,
        evs := plannedEv env s :: (devs ++ (loopGo env q fc rc fuel
          { stepCount := s.stepCount + 1, retryCount := s.retryCount,
            hasExecutedTool := true, messages := msgs2, calls := s.calls + 1 }).evs) } := by
  simp [loopGo, h10, hL, hg, htc, hp]

theorem loopGo_echo (env : Env) (q : String) (fc : Ctx) (rc : RetrievedContext)
    (fuel : Nat) (s : LoopSt) (c : Option String)
    (h10 : s.stepCount < 10) (hL : env.hasLLM = true)
    (hg : env.gateway s.calls = .reply c [])
    (he : (truthyOpt c && (strContains (c.getD "") "route_to_agent"
            || strContains (c.getD "") "execute_databricks_code")) = true) :
    loopGo env q fc rc (fuel + 1) s =
      { outcome := (loopGo env q fc rc fuel
          { s with stepCount := s.stepCount + 1, calls := s.calls + 1 }).outcome,
        evs := plannedEv env s :: (loopGo env q fc rc fuel
          { s with stepCount := s.stepCount + 1, calls := s.calls + 1 }).evs } := by
  simp [loopGo, h10, hL, hg, he]

theorem loopGo_final (env : Env) (q : String) (fc : Ctx) (rc : RetrievedContext)
    (fuel : Nat) (s : LoopSt) (c : Option String)
    (h10 : s.stepCount < 10) (hL : env.hasLLM = true)
    (hg : env.gateway s.calls = .reply c [])
    (he : (truthyOpt c && (strContains (c.getD "") "route_to_agent"
            || strContains (c.getD "") "execute_databricks_code")) = false) :
    loopGo env q fc rc (fuel + 1) s =
      { outcome := .final (mkFinalResponse env rc c), evs := [plannedEv env s] } := by
  simp [loopGo, h10, hL, hg, he]

/-! ## Trace lemmas -/

theorem plannedCount_nil : plannedCount [] = 0 := rfl

theorem plannedCount_cons (e : Ev) (evs : List Ev) :
    plannedCount (e :: evs) =
      (if isPlannedEv e then 1 else 0) + plannedCount evs := by
  simp only [plannedCount, List.filter_cons]
  split <;> simp [Nat.add_comm]

theorem plannedCount_append (a b : List Ev) :
    plannedCount (a ++ b) = plannedCount a + plannedCount b := by
  simp [plannedCount, List.filter_append]

theorem plannedCount_zero_of_dispatch (evs : List Ev)
    (h : ∀ e ∈ evs, isDispatchEv e = true) : plannedCount evs = 0 := by
  have : evs.filter isPlannedEv = [] := by
    apply List.filter_eq_nil_iff.mpr
    intro e he
    have := h e he
    cases e with
    | planned m tp tca => simp [isDispatchEv] at this
    | dispatched nm r => simp [isPlannedEv]
  simp [plannedCount, this]

theorem processCalls_evs_dispatch (env : Env) (q : String) (fc : Ctx) :
    ∀ (tcs : List ToolCallRec) (msgs : List Message),
      ∀ e ∈ turnEvs (processCalls env q fc tcs msgs), isDispatchEv e = true := by
  intro tcs
  induction tcs with
  | nil => intro msgs e he; simp [processCalls, turnEvs] at he
  | cons tc rest ih =>
    intro msgs e he
    cases hd : dispatchToolCall env q fc tc with
    | delegated r =>
      have hr : processCalls env q fc (tc :: rest) msgs =
          .delegatedT r [Ev.dispatched tc.name (.delegated r)] := by
        simp [processCalls, hd]
      rw [hr] at he
      simp [turnEvs] at he
      subst he
      rfl
    | outcome o =>
      cases hp : processCalls env q fc rest (msgs ++ [toolMsg tc o]) with
      | delegatedT r evs =>
        have hr : processCalls env q fc (tc :: rest) msgs =
            .delegatedT r (Ev.dispatched tc.name (.outcome o) :: evs) := by
          simp [processCalls, hd, hp]
        rw [hr] at he
        simp [turnEvs] at he
        rcases he with he | he
        · subst he; rfl
        · have := ih (msgs ++ [toolMsg tc o]) e
          rw [hp] at this
          exact this (by simpa [turnEvs] using he)
      | completedT m2 evs =>
        have hr : processCalls env q fc (tc :: rest) msgs =
            .completedT m2 (Ev.dispatched tc.name (.outcome o) :: evs) := by
          simp [processCalls, hd, hp]
        rw [hr] at he
        simp [turnEvs] at he
        rcases he with he | he
        · subst he; rfl
        · have := ih (msgs ++ [toolMsg tc o]) e
          rw [hp] at this
          exact this (by simpa [turnEvs] using he)

/-! ## Dispatcher inversion lemmas -/

theorem dispatch_delegated_inv (env : Env) (q : String) (fc : Ctx) (tc : ToolCallRec)
    (r : AgentResponse) (h : dispatchToolCall env q fc tc = .delegated r) :
    tc.name = "route_to_agent" ∧
    ∃ args t d, tc.args = .ok args ∧ getArg args "agent_name" = some t ∧
      env.registry t = some d ∧ r = d ((getArg args "query").getD q) := by
  obtain ⟨tid, tname, targs⟩ := tc
  cases targs with
  | fail m =>
    simp only [dispatchToolCall] at h
    simp at h
  | ok args =>
    simp only [dispatchToolCall] at h
    by_cases h1 : hasAttr (env.attrs tname) = true ∧ tname ≠ "execute"
    · rw [if_pos h1] at h
      cases hA : env.attrs tname with
      | absent => simp only [hA] at h; simp at h
      | notCallable => simp only [hA] at h; simp at h
      | method f =>
        simp only [hA] at h
        cases hf : f args with
        | ok o => simp only [hf] at h; simp at h
        | error e => simp only [hf] at h; simp at h
    · rw [if_neg h1] at h
      by_cases h2 : tname = "execute_databricks_code"
      · rw [if_pos h2] at h
        cases hdb : env.databricks (fc.cluster_id.getD "mock-cluster-1") (getArg args "code")
            ((getArg args "language").getD "python") with
        | ok rr => simp only [hdb] at h; simp at h
        | error e => simp only [hdb] at h; simp at h
      · rw [if_neg h2] at h
        by_cases h3 : tname = "route_to_agent"
        · rw [if_pos h3] at h
          cases ht : getArg args "agent_name" with
          | none => simp only [ht] at h; simp at h
          | some t =>
            simp only [ht] at h
            cases hd : env.registry t with
            | none => simp only [hd] at h; simp at h
            | some d =>
              simp only [hd] at h
              injection h with h1'
              exact ⟨h3, args, t, d, rfl, ht, hd, h1'.symm⟩
        · rw [if_neg h3] at h
          simp at h

theorem processCalls_delegated_inv (env : Env) (q : String) (fc : Ctx) :
    ∀ (tcs : List ToolCallRec) (msgs : List Message) (r : AgentResponse) (evs : List Ev),
      processCalls env q fc tcs msgs = .delegatedT r evs →
      ∃ tc ∈ tcs, dispatchToolCall env q fc tc = .delegated r := by
  intro tcs
  induction tcs with
  | nil => intro msgs r evs h; simp [processCalls] at h
  | cons tc rest ih =>
    intro msgs r evs h
    cases hd : dispatchToolCall env q fc tc with
    | delegated r' =>
      have hr : processCalls env q fc (tc :: rest) msgs =
          .delegatedT r' [Ev.dispatched tc.name (.delegated r')] := by
        simp [processCalls, hd]
      rw [hr] at h
      injection h with h1 h2
      exact ⟨tc, List.mem_cons_self tc rest, by rw [hd, h1]⟩
    | outcome o =>
      cases hp : processCalls env q fc rest (msgs ++ [toolMsg tc o]) with
      | delegatedT r' evs' =>
        have hr : processCalls env q fc (tc :: rest) msgs =
            .delegatedT r' (Ev.dispatched tc.name (.outcome o) :: evs') := by
          simp [processCalls, hd, hp]
        rw [hr] at h
        injection h with h1 h2
        obtain ⟨tc', htc', hdc⟩ := ih (msgs ++ [toolMsg tc o]) r' evs' hp
        exact ⟨tc', List.mem_cons_of_mem tc htc', by rw [hdc, h1]⟩
      | completedT m2 evs' =>
        have hr : processCalls env q fc (tc :: rest) msgs =
            .completedT m2 (Ev.dispatched tc.name (.outcome o) :: evs') := by
          simp [processCalls, hd, hp]
        rw [hr] at h
        exact absurd h (by simp)

theorem processCalls_completed (env : Env) (q : String) (fc : Ctx) :
    ∀ (tcs : List ToolCallRec),
      (∀ tc ∈ tcs, ∀ r, dispatchToolCall env q fc tc ≠ .delegated r) →
      ∀ msgs, ∃ msgs2 devs, processCalls env q fc tcs msgs = .completedT msgs2 devs := by
  intro tcs
  induction tcs with
  | nil => intro _ msgs; exact ⟨msgs, [], rfl⟩
  | cons tc rest ih =>
    intro hno msgs
    cases hd : dispatchToolCall env q fc tc with
    | delegated r' => exact absurd hd (hno tc (List.mem_cons_self tc rest) r')
    | outcome o =>
      obtain ⟨m2, devs, hp⟩ :=
        ih (fun tc' h' => hno tc' (List.mem_cons_of_mem tc h')) (msgs ++ [toolMsg tc o])
      exact ⟨m2, Ev.dispatched tc.name (.outcome o) :: devs, by simp [processCalls, hd, hp]⟩

theorem dispatch_nonroute_no_delegate (env : Env) (q : String) (fc : Ctx)
    (tc : ToolCallRec) (hn : tc.name ≠ "route_to_agent") (r : AgentResponse) :
    dispatchToolCall env q fc tc ≠ .delegated r := by
  intro h
  exact hn (dispatch_delegated_inv env q fc tc r h).1

/-! ## Loop outcome inversion lemmas -/

theorem loop_final_inv (env : Env) (q : String) (fc : Ctx) (rc : RetrievedContext) :
    ∀ (fuel : Nat) (s : LoopSt) (r : AgentResponse),
      (loopGo env q fc rc fuel s).outcome = .final r →
      ∃ c, r = mkFinalResponse env rc c ∧
        (truthyOpt c && (strContains (c.getD "") "route_to_agent"
          || strContains (c.getD "") "execute_databricks_code")) = false := by
  intro fuel
  induction fuel with
  | zero => intro s r h; simp [loopGo] at h
  | succ n ih =>
    intro s r h
    by_cases h10 : s.stepCount < 10
    · by_cases hL : env.hasLLM = true
      · cases hg : env.gateway s.calls with
        | raise m =>
          by_cases hr : 3 ≤ s.retryCount + 1
          · rw [loopGo_raise_fatal env q fc rc n s m h10 hL hg hr] at h
            simp at h
          · rw [loopGo_raise_retry env q fc rc n s m h10 hL hg (by omega)] at h
            exact ih _ r h
        | reply c tcs =>
          by_cases htc : tcs = []
          · subst htc
            by_cases he : (truthyOpt c && (strContains (c.getD "") "route_to_agent"
                || strContains (c.getD "") "execute_databricks_code")) = true
            · rw [loopGo_echo env q fc rc n s c h10 hL hg he] at h
              exact ih _ r h
            · have he' : (truthyOpt c && (strContains (c.getD "") "route_to_agent"
                  || strContains (c.getD "") "execute_databricks_code")) = false := by
                simpa using he
              rw [loopGo_final env q fc rc n s c h10 hL hg he'] at h
              simp at h
              exact ⟨c, h.symm, he'⟩
          · cases hp : processCalls env q fc tcs (s.messages ++ [asstMsg c tcs]) with
            | delegatedT r' devs =>
              rw [loopGo_turn_delegated env q fc rc n s c tcs r' devs h10 hL hg htc hp] at h
              simp at h
            | completedT m2 devs =>
              rw [loopGo_turn_completed env q fc rc n s c tcs m2 devs h10 hL hg htc hp] at h
              exact ih _ r h
      · rw [loopGo_noLLM env q fc rc (n + 1) s (by simpa using hL)] at h
        simp at h
    · rw [loopGo_guard env q fc rc (n + 1) s h10] at h
      simp at h

theorem loop_delegated_inv (env : Env) (q : String) (fc : Ctx) (rc : RetrievedContext) :
    ∀ (fuel : Nat) (s : LoopSt) (r : AgentResponse),
      (loopGo env q fc rc fuel s).outcome = .delegatedR r →
      ∃ t d rq, env.registry t = some d ∧ r = d rq := by
  intro fuel
  induction fuel with
  | zero => intro s r h; simp [loopGo] at h
  | succ n ih =>
    intro s r h
    by_cases h10 : s.stepCount < 10
    · by_cases hL : env.hasLLM = true
      · cases hg : env.gateway s.calls with
        | raise m =>
          by_cases hr : 3 ≤ s.retryCount + 1
          · rw [loopGo_raise_fatal env q fc rc n s m h10 hL hg hr] at h
            simp at h
          · rw [loopGo_raise_retry env q fc rc n s m h10 hL hg (by omega)] at h
            exact ih _ r h
        | reply c tcs =>
          by_cases htc : tcs = []
          · subst htc
            by_cases he : (truthyOpt c && (strContains (c.getD "") "route_to_agent"
                || strContains (c.getD "") "execute_databricks_code")) = true
            · rw [loopGo_echo env q fc rc n s c h10 hL hg he] at h
              exact ih _ r h
            · have he' : (truthyOpt c && (strContains (c.getD "") "route_to_agent"
                  || strContains (c.getD "") "execute_databricks_code")) = false := by
                simpa using he
              rw [loopGo_final env q fc rc n s c h10 hL hg he'] at h
              simp at h
          · cases hp : processCalls env q fc tcs (s.messages ++ [asstMsg c tcs]) with
            | delegatedT r' devs =>
              rw [loopGo_turn_delegated env q fc rc n s c tcs r' devs h10 hL hg htc hp] at h
              simp at h
              obtain ⟨tc, htc', hdc⟩ :=
                processCalls_delegated_inv env q fc tcs (s.messages ++ [asstMsg c tcs]) r' devs hp
              obtain ⟨-, args, t, d, -, -, hreg, hrq⟩ :=
                dispatch_delegated_inv env q fc tc r' hdc
              exact ⟨t, d, (getArg args "query").getD q, hreg, by rw [← h, hrq]⟩
            | completedT m2 devs =>
              rw [loopGo_turn_completed env q fc rc n s c tcs m2 devs h10 hL hg htc hp] at h
              exact ih _ r h
      · rw [loopGo_noLLM env q fc rc (n + 1) s (by simpa using hL)] at h
        simp at h
    · rw [loopGo_guard env q fc rc (n + 1) s h10] at h
      simp at h

/-! ## String non-emptiness helpers -/

theorem strAppend3_ne_empty (a b c : String) (h : a.data ≠ []) : a ++ b ++ c ≠ "" := by
  intro hc
  have hd : (a.data ++ b.data) ++ c.data = [] := by
    have := congrArg String.data hc
    rwa [String.data_append, String.data_append] at this
  exact h (List.append_eq_nil.mp (List.append_eq_nil.mp hd).1).1

theorem strAppend_ne_empty_left (a b : String) (h : a.data ≠ []) : a ++ b ≠ "" := by
  intro hc
  have hd : a.data ++ b.data = [] := by
    have := congrArg String.data hc
    rwa [String.data_append] at this
  exact h (List.append_eq_nil.mp hd).1

theorem apologize_error_nonempty (name m : String) :
    ∃ e, (apologizeResponse name m).error = some e ∧ e ≠ "" ∧
      (apologizeResponse name m).content = some ("I apologize, I encountered an issue: " ++ e) := by
  unfold apologizeResponse
  by_cases hm : m = ""
  · subst hm
    exact ⟨"Unknown error in " ++ name ++ " agent", by simp,
      strAppend3_ne_empty "Unknown error in " name " agent" (by decide), by simp⟩
  · exact ⟨m, by simp [hm], hm, by simp [hm]⟩

/-! ## Claim C1 -/

/-- C1: for every query, optional context and environment (gateway, tools,
registry, retrievers — the callback is modelled as an effect-free event
sink), one call to `BaseAgent.execute` returns exactly one `AgentResponse`
and never raises: an exception propagating out of the plan/act/observe loop
(the `raised` outcome) is caught at the top level and converted into an
`AgentResponse` with `success = false` and a non-empty `error` field. -/
theorem c1_execute_total_never_raises (env : Env) (q : String) (ctx : Option Ctx) :
    (∃ r : AgentResponse, execute env q ctx = r) ∧
    (∀ m, (executeBody env q ctx).outcome = .raised m →
      execute env q ctx = apologizeResponse env.name m ∧
      (execute env q ctx).success = false ∧
      ∃ e, (execute env q ctx).error = some e ∧ e ≠ "") := by
  refine ⟨⟨_, rfl⟩, ?_⟩
  intro m h
  have hx : execute env q ctx = apologizeResponse env.name m := by
    unfold execute
    rw [h]
  obtain ⟨e, he, hne, -⟩ := apologize_error_nonempty env.name m
  refine ⟨hx, ?_, e, ?_, hne⟩
  · rw [hx]; rfl
  · rw [hx]; exact he

theorem c1_witness :
    (execute cEnvC1 "query" none).success = false ∧
    (execute cEnvC1 "query" none).error = some "boom" := by
  have h := (c1_execute_total_never_raises cEnvC1 "query" none).2 "boom" (by decide)
  refine ⟨h.2.1, ?_⟩
  rw [h.1]
  rfl

/-! ## Claim C9 (corrected) -/

/-- C9 counterexample: with a gateway that always returns another tool
call, the invocation fails by step-budget exhaustion, and the returned
content is the max-steps message, not a string of the form
"I apologize, I encountered an issue: ...". -/
theorem c9_counterexample :
    (execute cEnvC9 "q" none).success = false ∧
    (execute cEnvC9 "q" none).content =
      some "I tried to process your request but reached the maximum allowed steps or encountered repeated errors." ∧
    strStarts ((execute cEnvC9 "q" none).content.getD "")
      "I apologize, I encountered an issue: " = false := by
  decide

/-- C9 amended: every failed invocation returns `success = false` with a
populated (non-empty) error; a top-level exception yields content of the
form "I apologize, I encountered an issue: ...", while step-budget (or
retry) exhaustion yields the distinct content "I tried to process your
request but reached the maximum allowed steps or encountered repeated
errors." with error "Max steps or retries exceeded". -/
theorem c9_amended_failure_forms (env : Env) (q : String) (ctx : Option Ctx) :
    ((executeBody env q ctx).outcome = .maxSteps →
      (execute env q ctx).success = false ∧
      (execute env q ctx).error = some "Max steps or retries exceeded" ∧
      (execute env q ctx).content =
        some "I tried to process your request but reached the maximum allowed steps or encountered repeated errors.") ∧
    (∀ m, (executeBody env q ctx).outcome = .raised m →
      (execute env q ctx).success = false ∧
      ∃ e, (execute env q ctx).error = some e ∧ e ≠ "" ∧
        (execute env q ctx).content = some ("I apologize, I encountered an issue: " ++ e)) := by
  constructor
  · intro h
    have hx : execute env q ctx = maxStepsResponse env.name := by
      unfold execute
      rw [h]
    rw [hx]
    exact ⟨rfl, rfl, rfl⟩
  · intro m h
    have hx : execute env q ctx = apologizeResponse env.name m := by
      unfold execute
      rw [h]
    rw [hx]
    obtain ⟨e, he, hne, hco⟩ := apologize_error_nonempty env.name m
    exact ⟨rfl, e, he, hne, hco⟩

theorem c9_amended_witness :
    (execute cEnvC9W "q" none).success = false ∧
    (execute cEnvC9W "q" none).error = some "Max steps or retries exceeded" := by
  have h := (c9_amended_failure_forms cEnvC9W "q" none).1 (by decide)
  exact ⟨h.1, h.2.1⟩

/-! ## Claim C2 -/

theorem isPlannedEv_plannedEv (env : Env) (s : LoopSt) :
    isPlannedEv (plannedEv env s) = true := rfl

theorem loop_allToolTurns_aux (env : Env) (q : String) (fc : Ctx) (rc : RetrievedContext)
    (hL : env.hasLLM = true)
    (hg : ∀ n, ∃ c tcs, env.gateway n = .reply c tcs ∧ tcs ≠ [] ∧
      ∀ tc ∈ tcs, tc.name ≠ "route_to_agent") :
    ∀ (fuel : Nat) (s : LoopSt), s.stepCount ≤ 10 → 10 - s.stepCount ≤ fuel →
      (loopGo env q fc rc fuel s).outcome = .maxSteps ∧
      plannedCount (loopGo env q fc rc fuel s).evs = 10 - s.stepCount := by
  intro fuel
  induction fuel with
  | zero =>
    intro s h1 h2
    refine ⟨rfl, ?_⟩
    have : plannedCount (loopGo env q fc rc 0 s).evs = 0 := rfl
    omega
  | succ n ih =>
    intro s h1 h2
    by_cases h10 : s.stepCount < 10
    · obtain ⟨c, tcs, hgw, htc, hnr⟩ := hg s.calls
      have hnodel : ∀ tc ∈ tcs, ∀ r, dispatchToolCall env q fc tc ≠ .delegated r :=
        fun tc h r => dispatch_nonroute_no_delegate env q fc tc (hnr tc h) r
      obtain ⟨m2, devs, hp⟩ :=
        processCalls_completed env q fc tcs hnodel (s.messages ++ [asstMsg c tcs])
      rw [loopGo_turn_completed env q fc rc n s c tcs m2 devs h10 hL hgw htc hp]
      have hdevs : plannedCount devs = 0 := by
        apply plannedCount_zero_of_dispatch
        intro e he
        have hall := processCalls_evs_dispatch env q fc tcs (s.messages ++ [asstMsg c tcs]) e
        rw [hp] at hall
        exact hall (by simpa [turnEvs] using he)
      obtain ⟨ho, hc⟩ := ih
        { stepCount := s.stepCount + 1, retryCount := s.retryCount,
          hasExecutedTool := true, messages := m2, calls := s.calls + 1 }
        (by simp; omega) (by simp; omega)
      refine ⟨ho, ?_⟩
      simp only [plannedCount_cons, plannedCount_append, isPlannedEv_plannedEv, if_pos, hdevs, hc]
      simp at hc ⊢
      omega
    · rw [loopGo_guard env q fc rc (n + 1) s h10]
      refine ⟨rfl, ?_⟩
      have : plannedCount ([] : List Ev) = 0 := rfl
      simp [this]
      omega

/-- C2: the step budget is a hard ceiling of 10 planning/acting round
trips: if the gateway returns at least one tool call on every planning
turn and none of them is a delegation, `execute` makes exactly 10 gateway
(planning) calls — not more — and returns the max-steps failure response
with `success = false` and the standard error message. -/
theorem c2_step_budget_hard_ceiling (env : Env) (q : String) (ctx : Option Ctx)
    (hL : env.hasLLM = true)
    (hg : ∀ n, ∃ c tcs, env.gateway n = .reply c tcs ∧ tcs ≠ [] ∧
      ∀ tc ∈ tcs, tc.name ≠ "route_to_agent") :
    plannedCount (eventsOf env q ctx) = 10 ∧
    execute env q ctx = maxStepsResponse env.name ∧
    (execute env q ctx).success = false ∧
    (execute env q ctx).error = some "Max steps or retries exceeded" := by
  obtain ⟨ho, hc⟩ := loop_allToolTurns_aux env q (fullCtxOf ctx)
    (retrieve_context env.rag env.kag) hL hg 13
    { stepCount := 0, retryCount := 0, hasExecutedTool := false,
      messages := initialMessages env q (retrieve_context env.rag env.kag) (fullCtxOf ctx),
      calls := 0 }
    (by simp) (by simp)
  have hbody : (executeBody env q ctx).outcome = .maxSteps := by
    simpa [executeBody] using ho
  have hevs : plannedCount (eventsOf env q ctx) = 10 := by
    simpa [eventsOf, executeBody] using hc
  have hx : execute env q ctx = maxStepsResponse env.name := by
    unfold execute
    rw [hbody]
  exact ⟨hevs, hx, by rw [hx]; rfl, by rw [hx]; rfl⟩

theorem c2_witness :
    plannedCount (eventsOf cEnvC2 "q" none) = 10 ∧
    execute cEnvC2 "q" none = maxStepsResponse "agent" := by
  have h := c2_step_budget_hard_ceiling cEnvC2 "q" none rfl
    (fun n => ⟨none, [⟨"id1", "search_docs", .ok []⟩], rfl, by decide, by decide⟩)
  exact ⟨h.1, h.2.1⟩

/-! ## Claim C3 -/

theorem loop_allRaises_aux (env : Env) (q : String) (fc : Ctx) (rc : RetrievedContext)
    (em : Nat → String) (hL : env.hasLLM = true)
    (hg : ∀ n, env.gateway n = .raise (em n)) :
    ∀ (fuel : Nat) (s : LoopSt), s.stepCount < 10 → s.retryCount ≤ 2 →
      (2 - s.retryCount) + 1 ≤ fuel →
      (loopGo env q fc rc fuel s).outcome = .raised (em (s.calls + (2 - s.retryCount))) ∧
      plannedCount (loopGo env q fc rc fuel s).evs = (2 - s.retryCount) + 1 := by
  intro fuel
  induction fuel with
  | zero => intro s h1 h2 h3; omega
  | succ n ih =>
    intro s h1 h2 h3
    by_cases hr : 3 ≤ s.retryCount + 1
    · have hr2 : s.retryCount = 2 := by omega
      rw [loopGo_raise_fatal env q fc rc n s (em s.calls) h1 hL (hg s.calls) hr]
      constructor
      · simp [hr2]
      · simp [plannedCount_cons, isPlannedEv_plannedEv, plannedCount_nil, hr2]
    · have hrlt : s.retryCount + 1 < 3 := by omega
      rw [loopGo_raise_retry env q fc rc n s (em s.calls) h1 hL (hg s.calls) hrlt]
      obtain ⟨ho, hc⟩ := ih
        { s with retryCount := s.retryCount + 1, calls := s.calls + 1 }
        (by simpa using h1) (by simp; omega) (by simp; omega)
      constructor
      · simp only [ho]
        simp
        congr 1
        omega
      · simp only [plannedCount_cons, isPlannedEv_plannedEv, if_pos, hc]
        simp at hc ⊢
        omega

/-- C3: if the gateway raises a transport error on every planning call,
`execute` attempts the gateway call exactly 3 times and then fails: the
loop re-raises the third error, the top-level handler converts it, and the
returned response has `success = false` with the last (third) error
message in its `error` field. -/
theorem c3_transport_failure_three_attempts (env : Env) (q : String) (ctx : Option Ctx)
    (em : Nat → String) (hL : env.hasLLM = true)
    (hg : ∀ n, env.gateway n = .raise (em n)) (hm : em 2 ≠ "") :
    plannedCount (eventsOf env q ctx) = 3 ∧
    (executeBody env q ctx).outcome = .raised (em 2) ∧
    (execute env q ctx).success = false ∧
    (execute env q ctx).error = some (em 2) := by
  obtain ⟨ho, hc⟩ := loop_allRaises_aux env q (fullCtxOf ctx)
    (retrieve_context env.rag env.kag) em hL hg 13
    { stepCount := 0, retryCount := 0, hasExecutedTool := false,
      messages := initialMessages env q (retrieve_context env.rag env.kag) (fullCtxOf ctx),
      calls := 0 }
    (by simp) (by simp) (by simp)
  have hbody : (executeBody env q ctx).outcome = .raised (em 2) := by
    simpa [executeBody] using ho
  have hevs : plannedCount (eventsOf env q ctx) = 3 := by
    simpa [eventsOf, executeBody] using hc
  have hx : execute env q ctx = apologizeResponse env.name (em 2) := by
    unfold execute
    rw [hbody]
  refine ⟨hevs, hbody, by rw [hx]; rfl, ?_⟩
  rw [hx]
  unfold apologizeResponse
  simp [hm]

theorem c3_witness :
    plannedCount (eventsOf cEnvC3 "q" none) = 3 ∧
    (execute cEnvC3 "q" none).success = false ∧
    (execute cEnvC3 "q" none).error = some "transport error 2" := by
  have h := c3_transport_failure_three_attempts cEnvC3 "q" none
    (fun n => "transport error " ++ toString n) rfl (fun n => rfl) (by decide)
  exact ⟨h.1, h.2.2.1, h.2.2.2⟩

/-! ## Claim C10 -/

theorem failCnt_succ_mem (f₁ f₂ c : Nat) (h12 : f₁ < f₂) (h : c = f₁ ∨ c = f₂) :
    failCnt f₁ f₂ (c + 1) = failCnt f₁ f₂ c + 1 := by
  rcases h with h | h <;> subst h <;> unfold failCnt <;> split_ifs <;> omega

theorem failCnt_succ_notmem (f₁ f₂ c : Nat) (h1 : c ≠ f₁) (h2 : c ≠ f₂) :
    failCnt f₁ f₂ (c + 1) = failCnt f₁ f₂ c := by
  unfold failCnt
  split_ifs <;> omega

theorem failCnt_le (f₁ f₂ c : Nat) (h12 : f₁ < f₂) : failCnt f₁ f₂ c ≤ c := by
  unfold failCnt
  split_ifs <;> omega

theorem failCnt_zero (f₁ f₂ : Nat) : failCnt f₁ f₂ 0 = 0 := by
  unfold failCnt
  split_ifs <;> omega

theorem failCnt_third (f₁ f₂ f₃ : Nat) (h12 : f₁ < f₂) (h23 : f₂ < f₃) :
    failCnt f₁ f₂ f₃ = 2 := by
  unfold failCnt
  split_ifs <;> omega

theorem loop_separated_failures_aux (env : Env) (q : String) (fc : Ctx)
    (rc : RetrievedContext) (f₁ f₂ f₃ : Nat) (em : Nat → String)
    (h12 : f₁ < f₂) (h23 : f₂ < f₃) (h3 : f₃ ≤ 11) (hL : env.hasLLM = true)
    (hraise : ∀ n, n = f₁ ∨ n = f₂ ∨ n = f₃ → env.gateway n = .raise (em n))
    (hok : ∀ n, n < f₃ → ¬(n = f₁ ∨ n = f₂) → ∃ c tcs, env.gateway n = .reply c tcs ∧
      tcs ≠ [] ∧ ∀ tc ∈ tcs, tc.name ≠ "route_to_agent") :
    ∀ (fuel : Nat) (s : LoopSt), s.calls ≤ f₃ →
      s.retryCount = failCnt f₁ f₂ s.calls →
      s.stepCount = s.calls - failCnt f₁ f₂ s.calls →
      f₃ + 1 - s.calls ≤ fuel →
      (loopGo env q fc rc fuel s).outcome = .raised (em f₃) ∧
      plannedCount (loopGo env q fc rc fuel s).evs = f₃ + 1 - s.calls := by
  intro fuel
  induction fuel with
  | zero => intro s hcalls hret hstep hfuel; omega
  | succ n ih =>
    intro s hcalls hret hstep hfuel
    have hcnt2 : failCnt f₁ f₂ s.calls ≤ 2 := by unfold failCnt; split_ifs <;> omega
    have hcntle : failCnt f₁ f₂ s.calls ≤ s.calls := failCnt_le f₁ f₂ s.calls h12
    have h10 : s.stepCount < 10 := by
      rw [hstep]
      unfold failCnt
      split_ifs <;> omega
    by_cases hf : s.calls = f₁ ∨ s.calls = f₂ ∨ s.calls = f₃
    · have hgw := hraise s.calls hf
      by_cases hfat : 3 ≤ s.retryCount + 1
      · have hcalls3 : s.calls = f₃ := by
          rcases hf with h | h | h
          · exfalso
            rw [hret, h] at hfat
            unfold failCnt at hfat
            split_ifs at hfat <;> omega
          · exfalso
            rw [hret, h] at hfat
            unfold failCnt at hfat
            split_ifs at hfat <;> omega
          · exact h
        rw [loopGo_raise_fatal env q fc rc n s (em s.calls) h10 hL hgw hfat]
        refine ⟨by simp [hcalls3], ?_⟩
        simp only [plannedCount_cons, isPlannedEv_plannedEv, if_pos, plannedCount_nil]
        omega
      · have hnot3 : s.calls ≠ f₃ := by
          intro hc3
          apply hfat
          rw [hret, hc3, failCnt_third f₁ f₂ f₃ h12 h23]
        have hfr : s.calls = f₁ ∨ s.calls = f₂ := by
          rcases hf with h | h | h
          · exact Or.inl h
          · exact Or.inr h
          · exact absurd h hnot3
        rw [loopGo_raise_retry env q fc rc n s (em s.calls) h10 hL hgw (by omega)]
        obtain ⟨ho, hc⟩ := ih { s with retryCount := s.retryCount + 1, calls := s.calls + 1 }
          (by simp; omega)
          (by simp [failCnt_succ_mem f₁ f₂ s.calls h12 hfr, hret])
          (by simp [failCnt_succ_mem f₁ f₂ s.calls h12 hfr, hstep, ← hret])
          (by simp; omega)
        refine ⟨ho, ?_⟩
        simp only [plannedCount_cons, isPlannedEv_plannedEv, if_pos, hc]
        simp only [LoopSt.calls] at hc ⊢
        omega
    · push_neg at hf
      obtain ⟨hne1, hne2, hne3⟩ := hf
      have hlt : s.calls < f₃ := by omega
      obtain ⟨c, tcs, hgw, htc, hnr⟩ := hok s.calls hlt (by tauto)
      have hnodel : ∀ tc ∈ tcs, ∀ r, dispatchToolCall env q fc tc ≠ .delegated r :=
        fun tc h r => dispatch_nonroute_no_delegate env q fc tc (hnr tc h) r
      obtain ⟨m2, devs, hp⟩ :=
        processCalls_completed env q fc tcs hnodel (s.messages ++ [asstMsg c tcs])
      rw [loopGo_turn_completed env q fc rc n s c tcs m2 devs h10 hL hgw htc hp]
      have hdevs : plannedCount devs = 0 := by
        apply plannedCount_zero_of_dispatch
        intro e he
        have hall := processCalls_evs_dispatch env q fc tcs (s.messages ++ [asstMsg c tcs]) e
        rw [hp] at hall
        exact hall (by simpa [turnEvs] using he)
      obtain ⟨ho, hc⟩ := ih
        { stepCount := s.stepCount + 1, retryCount := s.retryCount,
          hasExecutedTool := true, messages := m2, calls := s.calls + 1 }
        (by simp; omega)
        (by simp [failCnt_succ_notmem f₁ f₂ s.calls hne1 hne2, hret])
        (by simp [failCnt_succ_notmem f₁ f₂ s.calls hne1 hne2, hstep, ← hret]; omega)
        (by simp; omega)
      refine ⟨ho, ?_⟩
      simp only [plannedCount_cons, plannedCount_append, isPlannedEv_plannedEv, if_pos,
        hdevs, hc]
      simp only [LoopSt.calls] at hc ⊢
      omega

/-- C10: the planning-failure retry counter is initialised once per
invocation and never reset after a successful planning turn, so the
3-failure budget is cumulative over the whole invocation: for any three
gateway-call indices `f₁ < f₂ < f₃` (within the call budget, `f₃ ≤ 11`) at
which the gateway raises, with ordinary non-delegating tool turns at every
other planning call in between, the invocation fails when the third
exception occurs — even though planning succeeded in between — raising
that third error; the ceiling is not 3 attempts per entry into PLANNING. -/
theorem c10_retry_budget_cumulative (env : Env) (q : String) (ctx : Option Ctx)
    (f₁ f₂ f₃ : Nat) (em : Nat → String)
    (h12 : f₁ < f₂) (h23 : f₂ < f₃) (h3 : f₃ ≤ 11) (hL : env.hasLLM = true)
    (hraise : ∀ n, n = f₁ ∨ n = f₂ ∨ n = f₃ → env.gateway n = .raise (em n))
    (hok : ∀ n, n < f₃ → ¬(n = f₁ ∨ n = f₂) → ∃ c tcs, env.gateway n = .reply c tcs ∧
      tcs ≠ [] ∧ ∀ tc ∈ tcs, tc.name ≠ "route_to_agent") :
    (executeBody env q ctx).outcome = .raised (em f₃) ∧
    (execute env q ctx).success = false ∧
    plannedCount (eventsOf env q ctx) = f₃ + 1 := by
  obtain ⟨ho, hc⟩ := loop_separated_failures_aux env q (fullCtxOf ctx)
    (retrieve_context env.rag env.kag) f₁ f₂ f₃ em h12 h23 h3 hL hraise hok 13
    { stepCount := 0, retryCount := 0, hasExecutedTool := false,
      messages := initialMessages env q (retrieve_context env.rag env.kag) (fullCtxOf ctx),
      calls := 0 }
    (by simp) (by simp [failCnt_zero]) (by simp [failCnt_zero]) (by simp; omega)
  have hbody : (executeBody env q ctx).outcome = .raised (em f₃) := by
    simpa [executeBody] using ho
  have hevs : plannedCount (eventsOf env q ctx) = f₃ + 1 := by
    have := hc
    simp only [LoopSt.calls] at this
    simpa [eventsOf, executeBody] using this
  have hx : execute env q ctx = apologizeResponse env.name (em f₃) := by
    unfold execute
    rw [hbody]
  exact ⟨hbody, by rw [hx]; rfl, hevs⟩

theorem c10_witness :
    (execute cEnvC10 "q" none).success = false ∧
    plannedCount (eventsOf cEnvC10 "q" none) = 5 := by
  have h := c10_retry_budget_cumulative cEnvC10 "q" none 0 2 4
    (fun n => "fail " ++ toString n)
    (by omega) (by omega) (by omega) rfl
    (by
      intro n hn
      show (if n = 0 ∨ n = 2 ∨ n = 4 then GatewayTurn.raise ("fail " ++ toString n)
            else .reply none [⟨"id1", "search_docs", .ok []⟩]) = .raise ("fail " ++ toString n)
      rw [if_pos hn])
    (by
      intro n hn hne
      refine ⟨none, [⟨"id1", "search_docs", .ok []⟩], ?_, by decide, by decide⟩
      show (if n = 0 ∨ n = 2 ∨ n = 4 then GatewayTurn.raise ("fail " ++ toString n)
            else .reply none [⟨"id1", "search_docs", .ok []⟩]) =
        .reply none [⟨"id1", "search_docs", .ok []⟩]
      rw [if_neg (by omega)])
  exact ⟨h.2.1, h.2.2⟩

/-! ## Claim C4 (corrected) -/

theorem toolsToPassOf_true (env : Env) : toolsToPassOf env true = none := by
  simp [toolsToPassOf, toolChoiceValueOf]

theorem toolChoiceArgOf_true (env : Env) : toolChoiceArgOf env true = none := by
  simp [toolChoiceArgOf, toolsToPassOf_true]

theorem noToolsOffered_of_dispatch (e : Ev) (h : isDispatchEv e = true) :
    noToolsOffered e := by
  intro m tp tca hEq
  rw [hEq] at h
  simp [isDispatchEv] at h

theorem isDispatchEv_plannedEv (env : Env) (s : LoopSt) :
    isDispatchEv (plannedEv env s) = false := rfl

theorem noToolsOffered_plannedEv_of_exec (env : Env) (s : LoopSt)
    (hs : s.hasExecutedTool = true) : noToolsOffered (plannedEv env s) := by
  intro m tp tca hEq
  unfold plannedEv at hEq
  rw [hs, toolsToPassOf_true, toolChoiceArgOf_true] at hEq
  injection hEq with h1 h2 h3
  exact ⟨h2.symm, h3.symm⟩

theorem loop_planned_none_after_exec (env : Env) (q : String) (fc : Ctx)
    (rc : RetrievedContext) :
    ∀ (fuel : Nat) (s : LoopSt), s.hasExecutedTool = true →
      ∀ e ∈ (loopGo env q fc rc fuel s).evs, noToolsOffered e := by
  intro fuel
  induction fuel with
  | zero => intro s hs e he; simp [loopGo] at he
  | succ n ih =>
    intro s hs e he
    by_cases h10 : s.stepCount < 10
    · by_cases hL : env.hasLLM = true
      · have hpe := noToolsOffered_plannedEv_of_exec env s hs
        cases hg : env.gateway s.calls with
        | raise m =>
          by_cases hr : 3 ≤ s.retryCount + 1
          · rw [loopGo_raise_fatal env q fc rc n s m h10 hL hg hr] at he
            simp at he
            subst he
            exact hpe
          · rw [loopGo_raise_retry env q fc rc n s m h10 hL hg (by omega)] at he
            simp at he
            rcases he with he | he
            · subst he; exact hpe
            · exact ih { s with retryCount := s.retryCount + 1, calls := s.calls + 1 }
                (by simpa using hs) e he
        | reply c tcs =>
          by_cases htc : tcs = []
          · subst htc
            by_cases hec : (truthyOpt c && (strContains (c.getD "") "route_to_agent"
                || strContains (c.getD "") "execute_databricks_code")) = true
            · rw [loopGo_echo env q fc rc n s c h10 hL hg hec] at he
              simp at he
              rcases he with he | he
              · subst he; exact hpe
              · exact ih { s with stepCount := s.stepCount + 1, calls := s.calls + 1 }
                  (by simpa using hs) e he
            · have hec' : (truthyOpt c && (strContains (c.getD "") "route_to_agent"
                  || strContains (c.getD "") "execute_databricks_code")) = false := by
                simpa using hec
              rw [loopGo_final env q fc rc n s c h10 hL hg hec'] at he
              simp at he
              subst he
              exact hpe
          · cases hp : processCalls env q fc tcs (s.messages ++ [asstMsg c tcs]) with
            | delegatedT r devs =>
              rw [loopGo_turn_delegated env q fc rc n s c tcs r devs h10 hL hg htc hp] at he
              simp at he
              rcases he with he | he
              · subst he; exact hpe
              · apply noToolsOffered_of_dispatch
                have hall := processCalls_evs_dispatch env q fc tcs
                  (s.messages ++ [asstMsg c tcs]) e
                rw [hp] at hall
                exact hall (by simpa [turnEvs] using he)
            | completedT m2 devs =>
              rw [loopGo_turn_completed env q fc rc n s c tcs m2 devs h10 hL hg htc hp] at he
              simp at he
              rcases he with he | he | he
              · subst he; exact hpe
              · apply noToolsOffered_of_dispatch
                have hall := processCalls_evs_dispatch env q fc tcs
                  (s.messages ++ [asstMsg c tcs]) e
                rw [hp] at hall
                exact hall (by simpa [turnEvs] using he)
              · exact ih
                  { stepCount := s.stepCount + 1, retryCount := s.retryCount,
                    hasExecutedTool := true, messages := m2, calls := s.calls + 1 }
                  rfl e he
      · rw [loopGo_noLLM env q fc rc (n + 1) s (by simpa using hL)] at he
        simp at he
    · rw [loopGo_guard env q fc rc (n + 1) s h10] at he
      simp at he

theorem afterDispatch_of_tail (x : Ev) (tail : List Ev)
    (h : ∀ e ∈ tail, noToolsOffered e) : afterDispatchNoTools (x :: tail) := by
  intro i j hij hd e hj
  cases j with
  | zero => omega
  | succ j' =>
    have hj2 : tail.get? j' = some e := hj
    exact h e (List.get?_mem hj2)

theorem afterDispatch_cons_planned (x : Ev) (tail : List Ev)
    (hx : isDispatchEv x = false) (h : afterDispatchNoTools tail) :
    afterDispatchNoTools (x :: tail) := by
  intro i j hij hd e hj
  cases i with
  | zero =>
    obtain ⟨nm, r, hi⟩ := hd
    have hx2 : x = .dispatched nm r := by simpa using hi
    rw [hx2] at hx
    simp [isDispatchEv] at hx
  | succ i' =>
    cases j with
    | zero => omega
    | succ j' =>
      have hd' : ∃ nm r, tail.get? i' = some (.dispatched nm r) := by simpa using hd
      have hj' : tail.get? j' = some e := hj
      exact h i' j' (by omega) hd' e hj'

theorem afterDispatch_nil : afterDispatchNoTools [] := by
  intro i j hij hd e hj
  simp at hj

theorem loop_after_dispatch_no_tools (env : Env) (q : String) (fc : Ctx)
    (rc : RetrievedContext) :
    ∀ (fuel : Nat) (s : LoopSt), afterDispatchNoTools (loopGo env q fc rc fuel s).evs := by
  intro fuel
  induction fuel with
  | zero => intro s; exact afterDispatch_nil
  | succ n ih =>
    intro s
    by_cases h10 : s.stepCount < 10
    · by_cases hL : env.hasLLM = true
      · cases hg : env.gateway s.calls with
        | raise m =>
          by_cases hr : 3 ≤ s.retryCount + 1
          · rw [loopGo_raise_fatal env q fc rc n s m h10 hL hg hr]
            exact afterDispatch_of_tail _ [] (by simp)
          · rw [loopGo_raise_retry env q fc rc n s m h10 hL hg (by omega)]
            by_cases hs : s.hasExecutedTool = true
            · apply afterDispatch_of_tail
              exact loop_planned_none_after_exec env q fc rc n
                { s with retryCount := s.retryCount + 1, calls := s.calls + 1 }
                (by simpa using hs)
            · exact afterDispatch_cons_planned _ _ (isDispatchEv_plannedEv env s) (ih _)
        | reply c tcs =>
          by_cases htc : tcs = []
          · subst htc
            by_cases hec : (truthyOpt c && (strContains (c.getD "") "route_to_agent"
                || strContains (c.getD "") "execute_databricks_code")) = true
            · rw [loopGo_echo env q fc rc n s c h10 hL hg hec]
              by_cases hs : s.hasExecutedTool = true
              · apply afterDispatch_of_tail
                exact loop_planned_none_after_exec env q fc rc n
                  { s with stepCount := s.stepCount + 1, calls := s.calls + 1 }
                  (by simpa using hs)
              · exact afterDispatch_cons_planned _ _ (isDispatchEv_plannedEv env s) (ih _)
            · have hec' : (truthyOpt c && (strContains (c.getD "") "route_to_agent"
                  || strContains (c.getD "") "execute_databricks_code")) = false := by
                simpa using hec
              rw [loopGo_final env q fc rc n s c h10 hL hg hec']
              exact afterDispatch_of_tail _ [] (by simp)
          · cases hp : processCalls env q fc tcs (s.messages ++ [asstMsg c tcs]) with
            | delegatedT r devs =>
              rw [loopGo_turn_delegated env q fc rc n s c tcs r devs h10 hL hg htc hp]
              apply afterDispatch_of_tail
              intro e he
              apply noToolsOffered_of_dispatch
              have hall := processCalls_evs_dispatch env q fc tcs
                (s.messages ++ [asstMsg c tcs]) e
              rw [hp] at hall
              exact hall (by simpa [turnEvs] using he)
            | completedT m2 devs =>
              rw [loopGo_turn_completed env q fc rc n s c tcs m2 devs h10 hL hg htc hp]
              apply afterDispatch_of_tail
              intro e he
              rw [List.mem_append] at he
              rcases he with he | he
              · apply noToolsOffered_of_dispatch
                have hall := processCalls_evs_dispatch env q fc tcs
                  (s.messages ++ [asstMsg c tcs]) e
                rw [hp] at hall
                exact hall (by simpa [turnEvs] using he)
              · exact loop_planned_none_after_exec env q fc rc n
                  { stepCount := s.stepCount + 1, retryCount := s.retryCount,
                    hasExecutedTool := true, messages := m2, calls := s.calls + 1 } rfl e he
      · rw [loopGo_noLLM env q fc rc (n + 1) s (by simpa using hL)]
        exact afterDispatch_nil
    · rw [loopGo_guard env q fc rc (n + 1) s h10]
      exact afterDispatch_nil

/-- C4 counterexample: in a run whose first turn executes a tool, the
second planning call is made with the tool catalog withheld and with the
`tool_choice` argument `None` — not the string `"none"`: the source
computes `tool_choice_value = "none"` but then passes
`tool_choice_value if tools_to_pass else None`, and `tools_to_pass` is
`None`, so the claim that the call is made with tool_choice `'none'` is
false. -/
theorem c4_counterexample :
    plannedChoiceAt (eventsOf cEnvC4 "q" none) 2 = some (none, none) ∧
    plannedChoiceAt (eventsOf cEnvC4 "q" none) 2 ≠ some (none, some "none") := by
  constructor
  · decide
  · decide

/-- C4 amended: within one invocation, once at least one tool call has
been executed, every subsequent planning call to the gateway is made with
the tool catalog withheld (no tools passed) and with no `tool_choice`
argument (`None` — the internally computed `"none"` forcing value is
suppressed together with the tools), so the model's next turn can only be
free text. -/
theorem c4_amended_tools_withheld_after_exec (env : Env) (q : String) (ctx : Option Ctx) :
    ∀ i j, i < j →
      (∃ nm r, (eventsOf env q ctx).get? i = some (.dispatched nm r)) →
      ∀ m tp tca, (eventsOf env q ctx).get? j = some (.planned m tp tca) →
        tp = none ∧ tca = none := by
  intro i j hij hd m tp tca hj
  have hEvs : eventsOf env q ctx =
      (loopGo env q (fullCtxOf ctx) (retrieve_context env.rag env.kag) 13
        { stepCount := 0, retryCount := 0, hasExecutedTool := false,
          messages := initialMessages env q (retrieve_context env.rag env.kag) (fullCtxOf ctx),
          calls := 0 }).evs := rfl
  rw [hEvs] at hd hj
  exact loop_after_dispatch_no_tools env q (fullCtxOf ctx)
    (retrieve_context env.rag env.kag) 13 _ i j hij hd (.planned m tp tca) hj m tp tca rfl

theorem c4_amended_witness :
    plannedChoiceAt (eventsOf cEnvC4 "q" none) 2 = some (none, none) := by
  have h2 : (eventsOf cEnvC4 "q" none).get? 2 =
      some (.planned ((plannedMsgsAt (eventsOf cEnvC4 "q" none) 2).getD []) none none) := by
    decide
  have h := c4_amended_tools_withheld_after_exec cEnvC4 "q" none 1 2 (by omega)
    ⟨"search_docs", .outcome (.errDict "Tool search_docs not implemented"), by decide⟩
    ((plannedMsgsAt (eventsOf cEnvC4 "q" none) 2).getD []) none none h2
  unfold plannedChoiceAt
  rw [h2]

/-! ## Claim C5 -/

theorem processCalls_pre_delegate (env : Env) (q : String) (fc : Ctx)
    (tc : ToolCallRec) (post : List ToolCallRec) (r : AgentResponse)
    (hd : dispatchToolCall env q fc tc = .delegated r) :
    ∀ (pre : List ToolCallRec),
      (∀ tc' ∈ pre, ∃ o, dispatchToolCall env q fc tc' = .outcome o) →
      ∀ msgs, ∃ devs, devs.length = pre.length ∧
        (∀ e ∈ devs, isDispatchEv e = true) ∧
        processCalls env q fc (pre ++ tc :: post) msgs =
          .delegatedT r (devs ++ [Ev.dispatched tc.name (.delegated r)]) := by
  intro pre
  induction pre with
  | nil =>
    intro _ msgs
    refine ⟨[], rfl, by simp, ?_⟩
    simp [processCalls, hd]
  | cons tc' rest ih =>
    intro hpre msgs
    obtain ⟨o, ho⟩ := hpre tc' (List.mem_cons_self tc' rest)
    obtain ⟨devs, hlen, hdisp, hp⟩ :=
      ih (fun x hx => hpre x (List.mem_cons_of_mem tc' hx)) (msgs ++ [toolMsg tc' o])
    refine ⟨Ev.dispatched tc'.name (.outcome o) :: devs, by simp [hlen], ?_, ?_⟩
    · intro e he
      rcases List.mem_cons.mp he with he | he
      · subst he; rfl
      · exact hdisp e he
    · show processCalls env q fc ((tc' :: rest) ++ tc :: post) msgs = _
      rw [List.cons_append]
      simp [processCalls, ho, hp]

/-- C5: delegation is terminal and transparent. When a turn's tool calls
contain a `route_to_agent` call whose `agent_name` resolves in the
registry (and the agent has no local method of that name), and the calls
before it are ordinary outcome-producing dispatches, `execute` returns the
delegate agent's `AgentResponse` unmodified — the very value produced by
the delegate on the routed query, including its own success, error and
sources — makes no further planning call (exactly 1 in the whole
invocation), and never dispatches the tool calls after the delegation:
the trace is one planning event, the dispatches of the preceding calls,
and the delegation dispatch, nothing else. -/
theorem c5_delegation_terminal_transparent (env : Env) (q : String) (ctx : Option Ctx)
    (c : Option String) (pre post : List ToolCallRec) (tid : String) (args : ArgMap)
    (tname : String) (d : String → AgentResponse)
    (hL : env.hasLLM = true)
    (hg : env.gateway 0 = .reply c (pre ++ ⟨tid, "route_to_agent", .ok args⟩ :: post))
    (hattr : env.attrs "route_to_agent" = .absent)
    (htgt : getArg args "agent_name" = some tname)
    (hreg : env.registry tname = some d)
    (hpre : ∀ tc' ∈ pre, ∃ o, dispatchToolCall env q (fullCtxOf ctx) tc' = .outcome o) :
    execute env q ctx = d ((getArg args "query").getD q) ∧
    plannedCount (eventsOf env q ctx) = 1 ∧
    ∃ ev0 devs, isPlannedEv ev0 = true ∧ devs.length = pre.length ∧
      (∀ e ∈ devs, isDispatchEv e = true) ∧
      eventsOf env q ctx =
        ev0 :: (devs ++ [Ev.dispatched "route_to_agent"
          (.delegated (d ((getArg args "query").getD q)))]) := by
  have hd : dispatchToolCall env q (fullCtxOf ctx) ⟨tid, "route_to_agent", .ok args⟩ =
      .delegated (d ((getArg args "query").getD q)) := by
    simp [dispatchToolCall, hattr, hasAttr, htgt, hreg]
  obtain ⟨devs, hlen, hdisp, hp⟩ :=
    processCalls_pre_delegate env q (fullCtxOf ctx) ⟨tid, "route_to_agent", .ok args⟩
      post (d ((getArg args "query").getD q)) hd pre hpre
      (initialMessages env q (retrieve_context env.rag env.kag) (fullCtxOf ctx)
        ++ [asstMsg c (pre ++ ⟨tid, "route_to_agent", .ok args⟩ :: post)])
  have hbody : executeBody env q ctx =
      { outcome := .delegatedR (d ((getArg args "query").getD q)),
        evs := plannedEv env
          { stepCount := 0, retryCount := 0, hasExecutedTool := false,
            messages := initialMessages env q (retrieve_context env.rag env.kag)
              (fullCtxOf ctx), calls := 0 } ::
          (devs ++ [Ev.dispatched "route_to_agent"
            (.delegated (d ((getArg args "query").getD q)))]) } := by
    show loopGo env q (fullCtxOf ctx) (retrieve_context env.rag env.kag) 13
      { stepCount := 0, retryCount := 0, hasExecutedTool := false,
        messages := initialMessages env q (retrieve_context env.rag env.kag) (fullCtxOf ctx),
        calls := 0 } = _
    rw [show (13 : Nat) = 12 + 1 from rfl]
    exact loopGo_turn_delegated env q (fullCtxOf ctx) (retrieve_context env.rag env.kag)
      12 _ c (pre ++ ⟨tid, "route_to_agent", .ok args⟩ :: post)
      (d ((getArg args "query").getD q)) _ (by simp) hL hg (by simp) hp
  have hevs : eventsOf env q ctx =
      plannedEv env
        { stepCount := 0, retryCount := 0, hasExecutedTool := false,
          messages := initialMessages env q (retrieve_context env.rag env.kag)
            (fullCtxOf ctx), calls := 0 } ::
        (devs ++ [Ev.dispatched "route_to_agent"
          (.delegated (d ((getArg args "query").getD q)))]) :=
    congrArg LoopOut.evs hbody
  refine ⟨?_, ?_, _, devs, isPlannedEv_plannedEv env _, hlen, hdisp, hevs⟩
  · unfold execute
    rw [hbody]
  · rw [hevs]
    simp only [plannedCount_cons, plannedCount_append, isPlannedEv_plannedEv, if_pos]
    rw [plannedCount_zero_of_dispatch devs hdisp]
    rfl

theorem c5_witness :
    execute cEnvC5 "main question" none =
      { content := some "answer to sub task", agent_name := "python",
        sources := some ["s1"], metadata := none, success := true,
        error := none, plot := none } ∧
    plannedCount (eventsOf cEnvC5 "main question" none) = 1 := by
  have h := c5_delegation_terminal_transparent cEnvC5 "main question" none none
    [⟨"id0", "search_docs", .ok []⟩] [⟨"id2", "other_tool", .ok []⟩]
    "id1" [("agent_name", "python"), ("query", "sub task")] "python"
    (fun rq => { content := some ("answer to " ++ rq), agent_name := "python",
                 sources := some ["s1"], metadata := none,
                 success := true, error := none, plot := none })
    rfl rfl rfl rfl rfl
    (by
      intro tc' h'
      simp at h'
      subst h'
      exact ⟨.errDict "Tool search_docs not implemented", by decide⟩)
  exact ⟨h.1, h.2.1⟩

/-! ## Claim C6 -/

/-- C6: the tool-dispatch step never raises and never aborts the loop.
For every problematic tool call — unparseable argument string, unknown
tool name, delegation whose target agent is absent from the registry, or
a local handler that throws — the dispatcher produces a structured
outcome with status error (`ToolOut.errDict`) carrying a non-empty
message; processing the turn appends it to the transcript as a tool-role
message correlated by the call id; and the loop then continues (the turn
completes and `loopGo` re-enters planning with the step counter advanced
instead of terminating). -/
theorem c6_dispatcher_never_raises (env : Env) (q : String) (fc : Ctx)
    (rc : RetrievedContext) (tc : ToolCallRec) (hprob : problematicCall env tc) :
    ∃ m, m ≠ "" ∧ dispatchToolCall env q fc tc = .outcome (.errDict m) ∧
      (∀ msgs, processCalls env q fc [tc] msgs =
        .completedT (msgs ++ [toolMsg tc (.errDict m)])
          [Ev.dispatched tc.name (.outcome (.errDict m))]) ∧
      (∀ (fuel : Nat) (s : LoopSt) (c : Option String),
        env.hasLLM = true → s.stepCount < 10 → env.gateway s.calls = .reply c [tc] →
        loopGo env q fc rc (fuel + 1) s =
          { outcome := (loopGo env q fc rc fuel
              { stepCount := s.stepCount + 1, retryCount := s.retryCount,
                hasExecutedTool := true,
                messages := (s.messages ++ [asstMsg c [tc]]) ++ [toolMsg tc (.errDict m)],
                calls := s.calls + 1 }).outcome,
            evs := plannedEv env s :: (Ev.dispatched tc.name (.outcome (.errDict m)) ::
              (loopGo env q fc rc fuel
                { stepCount := s.stepCount + 1, retryCount := s.retryCount,
                  hasExecutedTool := true,
                  messages := (s.messages ++ [asstMsg c [tc]]) ++ [toolMsg tc (.errDict m)],
                  calls := s.calls + 1 }).evs) }) := by
  have hrest : ∀ m, dispatchToolCall env q fc tc = .outcome (.errDict m) →
      (∀ msgs, processCalls env q fc [tc] msgs =
        .completedT (msgs ++ [toolMsg tc (.errDict m)])
          [Ev.dispatched tc.name (.outcome (.errDict m))]) := by
    intro m hdisp msgs
    simp [processCalls, hdisp]
  have hloop : ∀ m, dispatchToolCall env q fc tc = .outcome (.errDict m) →
      (∀ (fuel : Nat) (s : LoopSt) (c : Option String),
        env.hasLLM = true → s.stepCount < 10 → env.gateway s.calls = .reply c [tc] →
        loopGo env q fc rc (fuel + 1) s =
          { outcome := (loopGo env q fc rc fuel
              { stepCount := s.stepCount + 1, retryCount := s.retryCount,
                hasExecutedTool := true,
                messages := (s.messages ++ [asstMsg c [tc]]) ++ [toolMsg tc (.errDict m)],
                calls := s.calls + 1 }).outcome,
            evs := plannedEv env s :: (Ev.dispatched tc.name (.outcome (.errDict m)) ::
              (loopGo env q fc rc fuel
                { stepCount := s.stepCount + 1, retryCount := s.retryCount,
                  hasExecutedTool := true,
                  messages := (s.messages ++ [asstMsg c [tc]]) ++ [toolMsg tc (.errDict m)],
                  calls := s.calls + 1 }).evs) }) := by
    intro m hdisp fuel s c hL h10 hg
    exact loopGo_turn_completed env q fc rc fuel s c [tc]
      ((s.messages ++ [asstMsg c [tc]]) ++ [toolMsg tc (.errDict m)])
      [Ev.dispatched tc.name (.outcome (.errDict m))]
      h10 hL hg (by simp) (hrest m hdisp (s.messages ++ [asstMsg c [tc]]))
  rcases hprob with ⟨m, hfail, hne⟩ | ⟨args, hargs, hattr, hdb, hroute⟩ |
    ⟨args, hargs, hname, hattr, hregm⟩ | ⟨args, f, e, hargs, hattr, hexec, hf, hne⟩
  · have hdisp : dispatchToolCall env q fc tc = .outcome (.errDict m) := by
      simp [dispatchToolCall, hfail]
    exact ⟨m, hne, hdisp, hrest m hdisp, hloop m hdisp⟩
  · have hdisp : dispatchToolCall env q fc tc =
        .outcome (.errDict ("Tool " ++ tc.name ++ " not implemented")) := by
      simp [dispatchToolCall, hargs, hattr, hasAttr, hdb, hroute]
    exact ⟨"Tool " ++ tc.name ++ " not implemented",
      strAppend3_ne_empty "Tool " tc.name " not implemented" (by decide),
      hdisp, hrest _ hdisp, hloop _ hdisp⟩
  · cases ht : getArg args "agent_name" with
    | some t =>
      have hreg := hregm t ht
      have hdisp : dispatchToolCall env q fc tc =
          .outcome (.errDict ("Agent " ++ t ++ " not found")) := by
        simp [dispatchToolCall, hargs, hname, hattr, hasAttr, ht, hreg]
      exact ⟨"Agent " ++ t ++ " not found",
        strAppend3_ne_empty "Agent " t " not found" (by decide),
        hdisp, hrest _ hdisp, hloop _ hdisp⟩
    | none =>
      have hdisp : dispatchToolCall env q fc tc =
          .outcome (.errDict "Agent None not found") := by
        simp [dispatchToolCall, hargs, hname, hattr, hasAttr, ht]
      exact ⟨"Agent None not found", by decide, hdisp, hrest _ hdisp, hloop _ hdisp⟩
  · have hdisp : dispatchToolCall env q fc tc = .outcome (.errDict e) := by
      simp [dispatchToolCall, hargs, hattr, hasAttr, hexec, hf]
    exact ⟨e, hne, hdisp, hrest e hdisp, hloop e hdisp⟩

theorem c6_witness :
    processCalls cEnvC6 "qq" (fullCtxOf none) [tcC6] [] =
      .completedT [toolMsg tcC6 (.errDict "Tool mystery_tool not implemented")]
        [Ev.dispatched "mystery_tool"
          (.outcome (.errDict "Tool mystery_tool not implemented"))] := by
  obtain ⟨m, hm, hdisp, hproc, -⟩ := c6_dispatcher_never_raises cEnvC6 "qq" (fullCtxOf none)
    (retrieve_context (.ok []) (.ok [])) tcC6
    (Or.inr (Or.inl ⟨[], rfl, rfl, by decide, by decide⟩))
  have hm2 : m = "Tool mystery_tool not implemented" := by
    have h1 : DispatchResult.outcome (ToolOut.errDict m) =
        .outcome (.errDict "Tool mystery_tool not implemented") :=
      hdisp.symm.trans (by decide)
    injection h1 with h2
    injection h2
  subst hm2
  have hp := hproc []
  simpa [tcC6] using hp

/-! ## Claim C7 (corrected) -/

theorem dedupDocs_key_not_seen :
    ∀ (l : List DocRec) (seen : List String) (d : DocRec),
      d ∈ dedupDocs l seen → docKey d ∉ seen := by
  intro l
  induction l with
  | nil => intro seen d hd; simp [dedupDocs] at hd
  | cons x rest ih =>
    intro seen d hd
    simp only [dedupDocs] at hd
    by_cases hx : docKey x ∈ seen
    · rw [if_pos hx] at hd
      exact ih seen d hd
    · rw [if_neg hx] at hd
      rcases List.mem_cons.mp hd with h | h
      · subst h; exact hx
      · intro hc
        exact ih (docKey x :: seen) d h (List.mem_cons_of_mem _ hc)

theorem dedupDocs_filter_le_one :
    ∀ (l : List DocRec) (seen : List String) (k : String),
      ((dedupDocs l seen).filter (fun e => docKey e == k)).length ≤ 1 := by
  intro l
  induction l with
  | nil => intro seen k; simp [dedupDocs]
  | cons x rest ih =>
    intro seen k
    simp only [dedupDocs]
    by_cases hx : docKey x ∈ seen
    · rw [if_pos hx]
      exact ih seen k
    · rw [if_neg hx, List.filter_cons]
      by_cases hk : (docKey x == k) = true
      · rw [if_pos hk]
      

        have hnil : (dedupDocs rest (docKey x :: seen)).filter (fun e => docKey e == k) = [] := by
          apply List.filter_eq_nil_iff.mpr
          intro e he hke
          have hns := dedupDocs_key_not_seen rest (docKey x :: seen) e he
          have hkk : docKey x = k := beq_iff_eq.mp hk
          have hek : docKey e = k := beq_iff_eq.mp hke
          exact hns (by rw [hek, ← hkk]; exact List.mem_cons_self _ _)
        simp [hnil]
      · rw [if_neg hk]
        exact ih (docKey x :: seen) k

theorem dedupDocs_mem_key :
    ∀ (l : List DocRec) (seen : List String) (d : DocRec),
      d ∈ l → docKey d ∉ seen →
      ∃ e ∈ dedupDocs l seen, docKey e = docKey d := by
  intro l
  induction l with
  | nil => intro seen d hd; simp at hd
  | cons x rest ih =>
    intro seen d hd hns
    simp only [dedupDocs]
    by_cases hx : docKey x ∈ seen
    · rw [if_pos hx]
      rcases List.mem_cons.mp hd with h | h
      · subst h; exact absurd hx hns
      · exact ih seen d h hns
    · rw [if_neg hx]
      by_cases hk : docKey x = docKey d
      · exact ⟨x, List.mem_cons_self _ _, hk⟩
      · rcases List.mem_cons.mp hd with h | h
        · subst h; exact absurd rfl hk
        · obtain ⟨e, he, hek⟩ := ih (docKey x :: seen) d h (by
            intro hc
            rcases List.mem_cons.mp hc with hc | hc
            · exact hk hc.symm
            · exact hns hc)
          exact ⟨e, List.mem_cons_of_mem _ he, hek⟩

theorem dedupDocs_find?_eq :
    ∀ (l : List DocRec) (seen : List String) (k : String), k ∉ seen →
      (dedupDocs l seen).find? (fun e => docKey e == k) =
        l.find? (fun e => docKey e == k) := by
  intro l
  induction l with
  | nil => intro seen k _; rfl
  | cons x rest ih =>
    intro seen k hk
    simp only [dedupDocs]
    by_cases hx : docKey x ∈ seen
    · rw [if_pos hx]
      have hpx : ¬ (docKey x == k) = true := by
        simp only [beq_iff_eq]
        intro hEq
        exact hk (hEq ▸ hx)
      rw [List.find?_cons_of_neg rest hpx]
      exact ih seen k hk
    · rw [if_neg hx]
      by_cases hpk : (docKey x == k) = true
      · have h1 : (x :: dedupDocs rest (docKey x :: seen)).find? (fun e => docKey e == k) =
            some x := List.find?_cons_of_pos _ hpk
        have h2 : (x :: rest).find? (fun e => docKey e == k) = some x :=
          List.find?_cons_of_pos rest hpk
        rw [h1, h2]
      · have h1 : (x :: dedupDocs rest (docKey x :: seen)).find? (fun e => docKey e == k) =
            (dedupDocs rest (docKey x :: seen)).find? (fun e => docKey e == k) :=
          List.find?_cons_of_neg _ hpk
        have h2 : (x :: rest).find? (fun e => docKey e == k) =
            rest.find? (fun e => docKey e == k) := List.find?_cons_of_neg rest hpk
        rw [h1, h2]
        apply ih (docKey x :: seen) k
        intro hc
        rcases List.mem_cons.mp hc with hc | hc
        · exact hpk (by simp [beq_iff_eq, hc.symm])
        · exact hk hc

theorem dedupDocs_sublist :
    ∀ (l : List DocRec) (seen : List String), List.Sublist (dedupDocs l seen) l := by
  intro l
  induction l with
  | nil => intro seen; simp [dedupDocs]
  | cons x rest ih =>
    intro seen
    simp only [dedupDocs]
    by_cases hx : docKey x ∈ seen
    · rw [if_pos hx]
      exact List.Sublist.cons x (ih seen)
    · rw [if_neg hx]
      exact List.Sublist.cons₂ x (ih (docKey x :: seen))

/-- C7 counterexample: two retrieved document records with the identical
title "zebra" but distinct filenames are both rendered — the title occurs
twice in the context text produced by `retrieve_context`, not exactly
once, because the deduplication key is `title_filename`, not the title. -/
theorem c7_counterexample :
    countOcc (retrieve_context (.ok [dC7a, dC7b]) (.ok [])).context_text "zebra" = 2 ∧
    (2 : Nat) ≠ 1 := by
  constructor
  · decide
  · decide

/-- C7 amended: `retrieve_context` deduplicates document records by the
combined key `title_filename` (`docKey`), not by title alone: among the
rendered document entries (`docLines` is exactly the rendered line of each
surviving record), every key occurring in the input occurs exactly once,
the surviving record for a key is the first record of the input with that
key (first occurrence wins), and the surviving records preserve the input
order (a sublist of the input). Records sharing a title but differing in
resolved filename are each rendered. -/
theorem c7_amended_dedup_by_title_filename (docs : List DocRec) (d : DocRec)
    (hd : d ∈ docs) :
    ((dedupDocs docs []).filter (fun e => docKey e == docKey d)).length = 1 ∧
    (dedupDocs docs []).find? (fun e => docKey e == docKey d) =
      docs.find? (fun e => docKey e == docKey d) ∧
    List.Sublist (dedupDocs docs []) docs ∧
    docLines docs = (dedupDocs docs []).map renderDocLine := by
  refine ⟨?_, dedupDocs_find?_eq docs [] (docKey d) (by simp),
    dedupDocs_sublist docs [], rfl⟩
  have hle := dedupDocs_filter_le_one docs [] (docKey d)
  obtain ⟨e, he, hek⟩ := dedupDocs_mem_key docs [] d hd (by simp)
  have hmem : e ∈ (dedupDocs docs []).filter (fun x => docKey x == docKey d) :=
    List.mem_filter.mpr ⟨he, by simp [beq_iff_eq, hek]⟩
  have hpos := List.length_pos.mpr (List.ne_nil_of_mem hmem)
  omega

theorem c7_amended_witness :
    ((dedupDocs [dC7a, dC7c] []).filter (fun e => docKey e == docKey dC7a)).length = 1 ∧
    (dedupDocs [dC7a, dC7c] []).find? (fun e => docKey e == docKey dC7a) =
      [dC7a, dC7c].find? (fun e => docKey e == docKey dC7a) ∧
    List.Sublist (dedupDocs [dC7a, dC7c] []) [dC7a, dC7c] ∧
    docLines [dC7a, dC7c] = (dedupDocs [dC7a, dC7c] []).map renderDocLine :=
  c7_amended_dedup_by_title_filename [dC7a, dC7c] dC7a (by decide)

/-! ## Claim C8 -/

/-- C8: the anti-echo guard. First part: whenever the gateway returns a
free-text response with zero tool calls whose non-empty content contains
the literal name of a terminal tool ("route_to_agent" or
"execute_databricks_code"), the loop does not return that text as the
final answer: it consumes exactly one step from the step budget (the
recursive state increments `stepCount` and leaves `retryCount` unchanged)
and re-enters planning. Second part: provided every registry delegate
satisfies the same guarantee (the delegate is the same code recursively),
a `success = true` response of `execute` never has content containing
either terminal-tool name — in particular it never equals such an echoed
string. -/
theorem c8_anti_echo_guard (env : Env) (q : String) (ctx : Option Ctx) :
    (∀ (fc : Ctx) (rc : RetrievedContext) (fuel : Nat) (s : LoopSt) (c : String),
      env.hasLLM = true → s.stepCount < 10 →
      env.gateway s.calls = .reply (some c) [] → c ≠ "" →
      (strContains c "route_to_agent" || strContains c "execute_databricks_code") = true →
      loopGo env q fc rc (fuel + 1) s =
        { outcome := (loopGo env q fc rc fuel
            { s with stepCount := s.stepCount + 1, calls := s.calls + 1 }).outcome,
          evs := plannedEv env s :: (loopGo env q fc rc fuel
            { s with stepCount := s.stepCount + 1, calls := s.calls + 1 }).evs }) ∧
    ((∀ t d, env.registry t = some d → ∀ rq, (d rq).success = true →
        ∀ s', (d rq).content = some s' →
        strContains s' "route_to_agent" = false ∧
        strContains s' "execute_databricks_code" = false) →
      (execute env q ctx).success = true →
      ∀ s', (execute env q ctx).content = some s' →
        strContains s' "route_to_agent" = false ∧
        strContains s' "execute_databricks_code" = false) := by
  constructor
  · intro fc rc fuel s c hL h10 hg hne hcont
    have he : (truthyOpt (some c) && (strContains ((some c).getD "") "route_to_agent"
        || strContains ((some c).getD "") "execute_databricks_code")) = true := by
      simpa [truthyOpt, truthyStr, hne] using hcont
    exact loopGo_echo env q fc rc fuel s (some c) h10 hL hg he
  · intro hreg hsucc s' hcon
    cases ho : (executeBody env q ctx).outcome with
    | final r =>
      have hx : execute env q ctx = r := by
        unfold execute
        rw [ho]
      have ho' : (loopGo env q (fullCtxOf ctx) (retrieve_context env.rag env.kag) 13
          { stepCount := 0, retryCount := 0, hasExecutedTool := false,
            messages := initialMessages env q (retrieve_context env.rag env.kag)
              (fullCtxOf ctx), calls := 0 }).outcome = .final r := ho
      obtain ⟨c, hr, hguard⟩ := loop_final_inv env q (fullCtxOf ctx)
        (retrieve_context env.rag env.kag) 13 _ r ho'
      subst hr
      rw [hx] at hcon
      have hc : c = some s' := hcon
      subst hc
      by_cases hs' : s' = ""
      · subst hs'
        exact ⟨by decide, by decide⟩
      · have ht : truthyOpt (some s') = true := by simp [truthyOpt, truthyStr, hs']
        rw [ht] at hguard
        simp at hguard
        exact hguard
    | delegatedR r =>
      have hx : execute env q ctx = r := by
        unfold execute
        rw [ho]
      have ho' : (loopGo env q (fullCtxOf ctx) (retrieve_context env.rag env.kag) 13
          { stepCount := 0, retryCount := 0, hasExecutedTool := false,
            messages := initialMessages env q (retrieve_context env.rag env.kag)
              (fullCtxOf ctx), calls := 0 }).outcome = .delegatedR r := ho
      obtain ⟨t, d, rq, hregt, hr⟩ := loop_delegated_inv env q (fullCtxOf ctx)
        (retrieve_context env.rag env.kag) 13 _ r ho'
      subst hr
      rw [hx] at hsucc hcon
      exact hreg t d hregt rq hsucc s' hcon
    | maxSteps =>
      have hx : execute env q ctx = maxStepsResponse env.name := by
        unfold execute
        rw [ho]
      rw [hx] at hsucc
      simp [maxStepsResponse] at hsucc
    | raised m =>
      have hx : execute env q ctx = apologizeResponse env.name m := by
        unfold execute
        rw [ho]
      rw [hx] at hsucc
      simp [apologizeResponse] at hsucc

theorem c8_witness :
    strContains "All done." "route_to_agent" = false ∧
    strContains "All done." "execute_databricks_code" = false := by
  exact (c8_anti_echo_guard cEnvC8 "q" none).2
    (by intro t d h'; simp [cEnvC8, baseEnv] at h')
    (by decide) "All done." (by decide)
